import Mathlib

/-!
# Verification of the open_echo sonar stream pipeline

Shallow embedding of the JavaScript sonar data pipeline:

* the fixed-size frame decoder in `server.js` (`src/unnamed/part_000`,
  function `sonarPacketHandler` and the anonymous data handler, identical
  framing also appears in `serialBufferHandler` of
  `sonar_gps_data_logger_throttled_writes.js`);
* the echo extraction helpers `calculateNoiseFloor`, `findBlindZoneEnd`,
  `findPrimaryReflection`;
* the EMA smoother `applyExponentialSmoothing`;
* the alternative decoder `extractAndProcessPacket` of
  `debugging/console_1800.js`;
* the `SignalTracker` consistency tracker of `debugging/console_1800.js`.

Bytes are modelled as `Nat` (wire values are < 256), JavaScript numbers used
for distances / noise floors are modelled as exact rationals `ℚ` (the JS
engine uses IEEE doubles; all claims settled here are insensitive to the
difference, and the convergence claim is stated in the epsilon form).
-/

namespace OpenEcho

/-! ## Shared wire constants (values from the sources, N = 1800 deployment) -/

/-- `NUM_SAMPLES = 1800` in `part_000` and `console_1800.js`. -/
def NUM_SAMPLES : Nat := 1800

/-- `PACKET_SIZE = 1 + 6 + 2 * NUM_SAMPLES + 1 = 3608`. -/
def PACKET_SIZE : Nat := 1 + 6 + 2 * NUM_SAMPLES + 1

/-- Start-of-frame sentinel `0xAA`. -/
def HEADER_BYTE : Nat := 0xAA

/-- `payload.readUInt16BE(i)` — big-endian 16-bit read at byte offset `i`. -/
def readUInt16BE (l : List Nat) (i : Nat) : Nat :=
  (l.getD i 0) * 256 + l.getD (i + 1) 0

/-- Reinterpret an unsigned 16-bit value as signed (`readInt16BE`). -/
def toInt16 (n : Nat) : Int :=
  if n < 32768 then (n : Int) else (n : Int) - 65536

/-- Consecutive big-endian 16-bit reads over a byte list: the sample loop
`for i ...: samples.push(samplesBuffer.readUInt16BE(i * 2))` reads exactly the
consecutive byte pairs of the samples buffer. -/
def chunkPairs : List Nat → List Nat
  | a :: b :: rest => (a * 256 + b) :: chunkPairs rest
  | _ => []

/-! ## part_000 decoder (`sonarPacketHandler` / the anonymous data handler) -/

/-- What `part_000` unpacks from one sliced packet and hands downstream.
`checksumOk` records the comparison the code performs (it only warns on a
mismatch; processing continues either way). -/
structure ParsedPacket where
  depthIndex : Nat
  tempScaled : Int
  vDrvScaled : Nat
  samples : List Nat
  checksumOk : Bool
  deriving DecidableEq, Repr

/-- Unpacking of one `PACKET_SIZE` slice, as done in the `part_000` handler:
`payload = packet.slice(1, PACKET_SIZE - 1)`, checksum = XOR of every payload
byte compared with the final byte, metadata and samples big-endian. -/
def parsePacket (packet : List Nat) : ParsedPacket :=
  let payload := (packet.drop 1).take (PACKET_SIZE - 2)
  let receivedChecksum := packet.getD (PACKET_SIZE - 1) 0
  let calculatedChecksum := payload.foldl Nat.xor 0
  { depthIndex := readUInt16BE payload 0
    tempScaled := toInt16 (readUInt16BE payload 2)
    vDrvScaled := readUInt16BE payload 4
    samples := chunkPairs (payload.drop 6)
    checksumOk := calculatedChecksum == receivedChecksum }

/-- The `while (buffer.length >= PACKET_SIZE)` loop of the `part_000` data
handler, with explicit fuel (the loop body always shortens the buffer, so
`fuel = buffer.length` suffices).  Returns the packets handed downstream in
order and the leftover buffer:
* no `0xAA` anywhere: discard the whole buffer and stop;
* `0xAA` at `headerIndex > 0`: discard the junk before it, and stop if fewer
  than `PACKET_SIZE` bytes remain;
* otherwise slice out `PACKET_SIZE` bytes, unpack them (checksum mismatch only
  warns), and always consume exactly `PACKET_SIZE` bytes. -/
def processLoop : Nat → List Nat → List ParsedPacket × List Nat
  | 0, buffer => ([], buffer)
  | fuel + 1, buffer =>
    if buffer.length < PACKET_SIZE then ([], buffer)
    else
      match buffer.findIdx? (fun b => b == HEADER_BYTE) with
      | none => ([], [])
      | some headerIndex =>
        let buffer1 := buffer.drop headerIndex
        if buffer1.length < PACKET_SIZE then ([], buffer1)
        else
          let packet := buffer1.take PACKET_SIZE
          let rest := processLoop fuel (buffer1.drop PACKET_SIZE)
          (parsePacket packet :: rest.1, rest.2)

/-- One `port.on('data')` event: append the chunk, then run the loop. -/
def part000Ingest (buffer chunk : List Nat) : List ParsedPacket × List Nat :=
  processLoop (buffer ++ chunk).length (buffer ++ chunk)

/-- Feeding a sequence of chunks through successive data events, starting from
an empty accumulation buffer; collects every packet handed downstream. -/
def feedChunks (chunks : List (List Nat)) : List ParsedPacket × List Nat :=
  chunks.foldl
    (fun acc chunk =>
      let step := part000Ingest acc.2 chunk
      (acc.1 ++ step.1, step.2))
    ([], [])

/-! ## Echo extraction (`calculateNoiseFloor`, `findBlindZoneEnd`,
`findPrimaryReflection`, identical in `part_000`,
`sonar_gps_data_logger_throttled_writes.js` and `server-gps-d3-serial.js`) -/

/-- `NOISE_FLOOR_RANGE = 100`. -/
def NOISE_FLOOR_RANGE : Nat := 100

/-- `SAMPLE_RESOLUTION = 0.2178` cm per sample. -/
def SAMPLE_RESOLUTION : ℚ := 2178 / 10000

/-- `EMA_ALPHA = 0.1`. -/
def EMA_ALPHA : ℚ := 1 / 10

/-- `calculateNoiseFloor`: `start = samples.length - NOISE_FLOOR_RANGE`;
if `start < 0` return 0, else the sum of `samples.slice(start)` divided by
`NOISE_FLOOR_RANGE`. -/
def calculateNoiseFloor (samples : List Nat) : ℚ :=
  if (samples.length : Int) - (NOISE_FLOOR_RANGE : Int) < 0 then 0
  else ((samples.drop (samples.length - NOISE_FLOOR_RANGE)).sum : ℚ) / (NOISE_FLOOR_RANGE : ℚ)

/-- `findBlindZoneEnd`: first `i < min(samples.length, 500)` with
`samples[i] <= noiseFloor * 1.2`, else the fallback 150. -/
def findBlindZoneEnd (samples : List Nat) (noiseFloor : ℚ) : Nat :=
  let threshold := noiseFloor * (12 / 10)
  match (List.range (min samples.length 500)).find?
      (fun i => decide ((samples.getD i 0 : ℚ) ≤ threshold)) with
  | some i => i
  | none => 150

/-- The forward scan `for (i = startIndex; i < samples.length; i++)
if (samples[i] > maxValue) { maxValue := samples[i]; maxIndex := i }`,
written over the remaining list with the running absolute index. -/
def scanFrom : List Nat → Int → Nat → Int → Nat × Int
  | [], _, maxValue, maxIndex => (maxValue, maxIndex)
  | a :: rest, i, maxValue, maxIndex =>
    if maxValue < a then scanFrom rest (i + 1) a i
    else scanFrom rest (i + 1) maxValue maxIndex

/-- The result record of `findPrimaryReflection`. -/
structure Reflection where
  value : Nat
  index : Int
  distance : ℚ
  blindZoneEndIndex : Nat
  deriving DecidableEq, Repr

/-- `findPrimaryReflection`: early return for the empty array, else scan from
the dynamically computed blind-zone end with initial accumulator
`maxValue = 0, maxIndex = -1`; `distance = maxIndex * SAMPLE_RESOLUTION`. -/
def findPrimaryReflection (samples : List Nat) : Reflection :=
  if samples.length = 0 then
    { value := 0, index := -1, distance := 0, blindZoneEndIndex := 0 }
  else
    let noiseFloor := calculateNoiseFloor samples
    let startIndex := findBlindZoneEnd samples noiseFloor
    let mv := scanFrom (samples.drop startIndex) (startIndex : Int) 0 (-1)
    { value := mv.1
      index := mv.2
      distance := (mv.2 : ℚ) * SAMPLE_RESOLUTION
      blindZoneEndIndex := startIndex }

/-! ## EMA smoother (`applyExponentialSmoothing`) -/

/-- `applyExponentialSmoothing`, with the mutable global
`lastSmoothedDistance : number | null` made an explicit `Option ℚ` state.
Returns (returned smoothed value, new state). -/
def applyExponentialSmoothing (currentDistance : ℚ) :
    Option ℚ → ℚ × Option ℚ
  | none => (currentDistance, some currentDistance)
  | some lastSmoothed =>
    let smoothed := EMA_ALPHA * currentDistance + (1 - EMA_ALPHA) * lastSmoothed
    (smoothed, some smoothed)

/-- Smoother state after `n` successive calls with the same raw value `v`,
starting from state `st`. -/
def smoothStateN (v : ℚ) (st : Option ℚ) : Nat → Option ℚ
  | 0 => st
  | n + 1 => (applyExponentialSmoothing v (smoothStateN v st n)).2

/-! ## Per-packet pipeline of `sonarPacketHandler` (part_000) -/

/-- Everything observable from processing one unpacked frame in
`sonarPacketHandler`: the reflection, the smoother call (which happens
unconditionally, before the quality test), and whether the frame was sent to
the WebSocket clients (`reflection.value < 50` skips the send). -/
structure SonarStepResult where
  reflection : Reflection
  smoothed : ℚ
  state : Option ℚ
  sent : Bool
  deriving DecidableEq, Repr

/-- The downstream part of `sonarPacketHandler`'s packet branch: find the
reflection, smooth its raw distance, then drop the frame from dissemination
when `reflection.value < 50`. -/
def sonarStep (samples : List Nat) (st : Option ℚ) : SonarStepResult :=
  let reflection := findPrimaryReflection samples
  let sm := applyExponentialSmoothing reflection.distance st
  if reflection.value < 50 then
    { reflection := reflection, smoothed := sm.1, state := sm.2, sent := false }
  else
    { reflection := reflection, smoothed := sm.1, state := sm.2, sent := true }

/-! ## console_1800.js decoder (`extractAndProcessPacket`) -/

/-- `PAYLOAD_LEN = 6 + 2 * NUM_SAMPLES = 3606`. -/
def PAYLOAD_LEN : Nat := 6 + 2 * NUM_SAMPLES

/-- `PACKET_LEN = 1 + PAYLOAD_LEN + 1 = 3608`. -/
def PACKET_LEN : Nat := 1 + PAYLOAD_LEN + 1

/-- The header search of `extractAndProcessPacket`:
`for (i = 0; i <= buffer.length - PACKET_LEN; i++) if (buffer[i] == 0xAA)`.
The loop bound only admits positions where a full packet could start; when
`buffer.length < PACKET_LEN` the (JS, signed) bound is negative and the loop
body never runs. -/
def c1800FindHeader (buffer : List Nat) : Option Nat :=
  if buffer.length < PACKET_LEN then none
  else (List.range (buffer.length - PACKET_LEN + 1)).find?
    (fun i => buffer.getD i 0 == HEADER_BYTE)

/-- The candidate packet `buffer.subarray(h, h + PACKET_LEN)`. -/
def candidateAt (buffer : List Nat) (h : Nat) : List Nat :=
  (buffer.drop h).take PACKET_LEN

/-- The candidate payload `potentialPacket.subarray(1, 1 + PAYLOAD_LEN)`. -/
def payloadAt (buffer : List Nat) (h : Nat) : List Nat :=
  ((candidateAt buffer h).drop 1).take PAYLOAD_LEN

/-- XOR checksum as computed over a payload. -/
def xorChecksum (payload : List Nat) : Nat :=
  payload.foldl Nat.xor 0

/-- The parsed packet of `extractAndProcessPacket` (`values` plus scaled
metadata is returned; we keep the raw metadata words). -/
structure C1800Packet where
  depthIndex : Nat
  tempScaled : Int
  vDrvScaled : Nat
  values : List Nat
  deriving DecidableEq, Repr

/-- Payload unpacking after a successful checksum test in
`extractAndProcessPacket`. -/
def parseC1800 (payload : List Nat) : C1800Packet :=
  { depthIndex := readUInt16BE payload 0
    tempScaled := toInt16 (readUInt16BE payload 2)
    vDrvScaled := readUInt16BE payload 4
    values := chunkPairs (payload.drop 6) }

/-- `extractAndProcessPacket` with explicit fuel for its checksum-mismatch
self-recursion.  Returns the packet (if any) and the new buffer:
* no full-packet header: return `null`, buffer untouched;
* checksum mismatch at the found header: cut the buffer just past that header
  byte (`buffer = buffer.subarray(headerIndex + 1)`) and try again;
* checksum match: parse, and consume through the packet end. -/
def extractLoop : Nat → List Nat → Option C1800Packet × List Nat
  | 0, buffer => (none, buffer)
  | fuel + 1, buffer =>
    match c1800FindHeader buffer with
    | none => (none, buffer)
    | some h =>
      let payload := payloadAt buffer h
      let received := (candidateAt buffer h).getD (PACKET_LEN - 1) 0
      if xorChecksum payload ≠ received then
        extractLoop fuel (buffer.drop (h + 1))
      else
        (some (parseC1800 payload), buffer.drop (h + PACKET_LEN))

/-! ## console_1800.js `SignalTracker` -/

/-- `THRESHOLD = 60`, `CONSISTENCY_SAMPLES = 3`, `POSITION_TOLERANCE = 5`. -/
def THRESHOLD : Nat := 60

/-- Consistency window size `CONSISTENCY_SAMPLES`. -/
def CONSISTENCY_SAMPLES : Nat := 3

/-- Position tolerance `POSITION_TOLERANCE`. -/
def POSITION_TOLERANCE : Nat := 5

/-- The mutable fields of a `SignalTracker` instance. -/
structure TrackerState where
  buffer : List (List Nat)
  bufferSize : Nat
  threshold : Nat
  tolerance : Nat
  deriving DecidableEq, Repr

/-- `new SignalTracker(bufferSize, threshold, tolerance)`. -/
def SignalTracker.mk0 (bufferSize threshold tolerance : Nat) : TrackerState :=
  { buffer := [], bufferSize := bufferSize, threshold := threshold,
    tolerance := tolerance }

/-- Step 1 of `updateAndGetConsistentIndices`: all indices whose value is at
or above the threshold. -/
def peakIndices (threshold : Nat) (values : List Nat) : List Nat :=
  (List.range values.length).filter (fun i => threshold ≤ values.getD i 0)

/-- The per-index consistency test: for one past peak list, is some past index
within `[max 0 (i - tol), min (NUM_SAMPLES - 1) (i + tol)]`?  (`Nat`
subtraction truncates at 0 exactly like `Math.max(0, index - tol)`.) -/
def matchesPast (tolerance i : Nat) (pastPeaks : List Nat) : Bool :=
  pastPeaks.any (fun p => i - tolerance ≤ p ∧ p ≤ min (NUM_SAMPLES - 1) (i + tolerance))

/-- `updateAndGetConsistentIndices`: push the current peak list, evict the
oldest entry beyond capacity, return the empty set until the window is full,
else keep exactly the indices of the newest list matching every older list. -/
def updateTracker (st : TrackerState) (values : List Nat) :
    TrackerState × List Nat :=
  let currentPeaks := peakIndices st.threshold values
  let buf1 := st.buffer ++ [currentPeaks]
  let buf2 := if st.bufferSize < buf1.length then buf1.drop 1 else buf1
  let st1 := { st with buffer := buf2 }
  if buf2.length < st.bufferSize then (st1, [])
  else
    (st1, currentPeaks.filter
      (fun i => (buf2.take (buf2.length - 1)).all (matchesPast st.tolerance i)))

/-! ## Helper lemmas: folds, chunking, concrete frames -/

theorem foldl_xor_replicate_zero (n : Nat) (a : Nat) :
    (List.replicate n 0).foldl Nat.xor a = a := by
  induction n generalizing a with
  | zero => rfl
  | succ n ih =>
    rw [List.replicate_succ, List.foldl_cons]
    have h : Nat.xor a 0 = a := Nat.xor_zero a
    rw [h, ih]

theorem chunkPairs_replicate_zero (n : Nat) :
    chunkPairs (List.replicate (2 * n) 0) = List.replicate n 0 := by
  induction n with
  | zero => rfl
  | succ n ih =>
    have h2 : 2 * (n + 1) = (2 * n) + 1 + 1 := by ring
    rw [h2, List.replicate_succ, List.replicate_succ, chunkPairs, ih]
    rfl

theorem getD_drop_zero (l : List Nat) (n i : Nat) :
    (l.drop n).getD i 0 = l.getD (n + i) 0 := by
  simp [List.getD_eq_getElem?_getD, List.getElem?_drop]

/-- Frame with all-zero payload and checksum byte `c`: valid iff `c = 0`. -/
def zeroPayloadFrame (c : Nat) : List Nat :=
  HEADER_BYTE :: (List.replicate (6 + 2 * NUM_SAMPLES) 0 ++ [c])

/-- The all-zero valid frame: header, zero metadata, zero samples, checksum 0. -/
def zeroFrame : List Nat := zeroPayloadFrame 0

/-- The same frame with checksum byte 1: its computed checksum (0) mismatches. -/
def corruptFrame : List Nat := zeroPayloadFrame 1

theorem zeroPayloadFrame_length (c : Nat) :
    (zeroPayloadFrame c).length = PACKET_SIZE := by
  rw [zeroPayloadFrame, List.length_cons, List.length_append,
    List.length_replicate, List.length_singleton, PACKET_SIZE]
  omega

theorem parsePacket_zeroPayloadFrame (c : Nat) :
    parsePacket (zeroPayloadFrame c) =
      { depthIndex := 0, tempScaled := 0, vDrvScaled := 0,
        samples := List.replicate NUM_SAMPLES 0, checksumOk := (0 == c) } := by
  have hpay : ((zeroPayloadFrame c).drop 1).take (PACKET_SIZE - 2) =
      List.replicate (6 + 2 * NUM_SAMPLES) 0 := by
    rw [show (zeroPayloadFrame c).drop 1 =
      List.replicate (6 + 2 * NUM_SAMPLES) 0 ++ [c] from rfl]
    exact List.take_left' (by rw [List.length_replicate, PACKET_SIZE]; omega)
  have hrecv : (zeroPayloadFrame c).getD (PACKET_SIZE - 1) 0 = c := by
    rw [zeroPayloadFrame, List.getD_eq_getElem?_getD,
      show PACKET_SIZE - 1 = (6 + 2 * NUM_SAMPLES) + 1 from by rw [PACKET_SIZE]; omega,
      List.getElem?_cons_succ,
      List.getElem?_append_right (by rw [List.length_replicate]),
      List.length_replicate]
    simp
  have hsamples : chunkPairs ((List.replicate (6 + 2 * NUM_SAMPLES) 0).drop 6) =
      List.replicate NUM_SAMPLES 0 := by
    rw [List.drop_replicate, show 6 + 2 * NUM_SAMPLES - 6 = 2 * NUM_SAMPLES from by omega]
    exact chunkPairs_replicate_zero NUM_SAMPLES
  have hread : ∀ i, readUInt16BE (List.replicate (6 + 2 * NUM_SAMPLES) 0) i = 0 := by
    intro i
    rw [readUInt16BE, List.getD_eq_getElem?_getD, List.getD_eq_getElem?_getD,
      List.getElem?_replicate, List.getElem?_replicate]
    by_cases h1 : i < 6 + 2 * NUM_SAMPLES <;>
      by_cases h2 : i + 1 < 6 + 2 * NUM_SAMPLES <;> simp [h1, h2]
  rw [parsePacket]
  simp only [hpay, hrecv, hsamples, hread, foldl_xor_replicate_zero]
  rfl

/-! ## Helper lemmas: unfolding the part_000 loop -/

theorem processLoop_nil (fuel : Nat) : processLoop fuel [] = ([], []) := by
  cases fuel with
  | zero => rfl
  | succ fuel => simp [processLoop, PACKET_SIZE, NUM_SAMPLES]

theorem processLoop_short (fuel : Nat) (buffer : List Nat)
    (h : buffer.length < PACKET_SIZE) :
    processLoop fuel buffer = ([], buffer) := by
  cases fuel with
  | zero => rfl
  | succ fuel => simp [processLoop, h]

/-- Unfolding the loop when a full candidate sits at the front of the buffer. -/
theorem processLoop_step (fuel : Nat) (t : List Nat)
    (hlen : PACKET_SIZE ≤ (HEADER_BYTE :: t).length) :
    processLoop (fuel + 1) (HEADER_BYTE :: t) =
      ((parsePacket ((HEADER_BYTE :: t).take PACKET_SIZE)) ::
        (processLoop fuel ((HEADER_BYTE :: t).drop PACKET_SIZE)).1,
       (processLoop fuel ((HEADER_BYTE :: t).drop PACKET_SIZE)).2) := by
  rw [processLoop]
  rw [if_neg (by omega)]
  rw [List.findIdx?_cons]
  simp only [beq_self_eq_true, if_true, List.drop_zero]
  rw [if_neg (by omega)]

theorem processLoop_no_header (fuel : Nat) (buffer : List Nat)
    (hmem : HEADER_BYTE ∉ buffer) (hlen : PACKET_SIZE ≤ buffer.length)
    (hfuel : 1 ≤ fuel) :
    processLoop fuel buffer = ([], []) := by
  obtain ⟨f, rfl⟩ : ∃ f, fuel = f + 1 := ⟨fuel - 1, by omega⟩
  rw [processLoop]
  rw [if_neg (by omega)]
  have : buffer.findIdx? (fun b => b == HEADER_BYTE) = none := by
    rw [List.findIdx?_eq_none_iff]
    intro x hx
    simp only [beq_eq_false_iff_ne, ne_eq]
    intro heq; exact hmem (heq ▸ hx)
  rw [this]

/-- The leftover buffer always ends strictly shorter than `PACKET_SIZE`. -/
theorem processLoop_leftover (fuel : Nat) :
    ∀ buffer : List Nat, buffer.length ≤ fuel →
      ((processLoop fuel buffer).2).length < PACKET_SIZE := by
  induction fuel with
  | zero =>
    intro buffer hlen
    have : buffer = [] := List.eq_nil_of_length_eq_zero (by omega)
    subst this
    simp [processLoop, PACKET_SIZE, NUM_SAMPLES]
  | succ fuel ih =>
    intro buffer hlen
    rw [processLoop]
    by_cases hshort : buffer.length < PACKET_SIZE
    · rw [if_pos hshort]; exact hshort
    · rw [if_neg hshort]
      cases hfind : buffer.findIdx? (fun b => b == HEADER_BYTE) with
      | none => simp [PACKET_SIZE, NUM_SAMPLES]
      | some headerIndex =>
        simp only
        by_cases hshort1 : (buffer.drop headerIndex).length < PACKET_SIZE
        · rw [if_pos hshort1]; exact hshort1
        · rw [if_neg hshort1]
          simp only
          apply ih
          have h1 : (buffer.drop headerIndex).length = buffer.length - headerIndex := by
            simp
          have h2 : ((buffer.drop headerIndex).drop PACKET_SIZE).length =
              buffer.length - headerIndex - PACKET_SIZE := by
            simp only [List.length_drop]
          have hp : (0 : Nat) < PACKET_SIZE := by norm_num [PACKET_SIZE, NUM_SAMPLES]
          omega

/-! ## Claim C7: noise floor -/

/-- Spec-side definition, following §4.2.1 of the spec: the arithmetic mean of
the last `NOISE_TAIL` (= `NOISE_FLOOR_RANGE`) samples, 0 when `N` is smaller
than the tail length; written independently of the code, for comparison. -/
def specNoiseFloor (samples : List Nat) : ℚ :=
  if samples.length < NOISE_FLOOR_RANGE then 0
  else
    let lastN := (samples.reverse.take NOISE_FLOOR_RANGE).reverse
    (lastN.sum : ℚ) / (lastN.length : ℚ)

/-- C7: for every sample array, the computed noise floor equals the arithmetic
mean of the last `NOISE_TAIL` (100) samples, and is 0 whenever the array holds
fewer than `NOISE_TAIL` samples. -/
theorem c7_noise_floor_is_tail_mean (samples : List Nat) :
    calculateNoiseFloor samples = specNoiseFloor samples := by
  by_cases h : samples.length < NOISE_FLOOR_RANGE
  · rw [calculateNoiseFloor, if_pos (by omega), specNoiseFloor, if_pos h]
  · rw [calculateNoiseFloor, if_neg (by omega), specNoiseFloor, if_neg h]
    have h1 : (samples.drop (samples.length - NOISE_FLOOR_RANGE)).reverse =
        samples.reverse.take NOISE_FLOOR_RANGE := by
      rw [List.reverse_drop]
      congr 1
      omega
    have hdrop : samples.drop (samples.length - NOISE_FLOOR_RANGE) =
        (samples.reverse.take NOISE_FLOOR_RANGE).reverse := by
      rw [← h1, List.reverse_reverse]
    have hlen : ((samples.reverse.take NOISE_FLOOR_RANGE).reverse).length =
        NOISE_FLOOR_RANGE := by
      rw [List.length_reverse, List.length_take, List.length_reverse]
      omega
    simp only [hdrop, hlen]

/-! ## Claim C6: EMA smoother -/

theorem smoothStateN_closed (v s0 : ℚ) (n : Nat) :
    smoothStateN v (some s0) n =
      some (v + (1 - EMA_ALPHA) ^ n * (s0 - v)) := by
  induction n with
  | zero =>
    rw [smoothStateN]
    congr 1
    ring
  | succ n ih =>
    rw [smoothStateN, ih]
    have happ : ∀ x : ℚ, (applyExponentialSmoothing v (some x)).2 =
        some (EMA_ALPHA * v + (1 - EMA_ALPHA) * x) := fun _ => rfl
    rw [happ]
    congr 1
    ring

/-- C6: the first smoother call returns the input exactly and initializes the
state with it; later calls return `alpha * raw + (1 - alpha) * previous`; and
smoothing a constant `v` repeatedly brings the state within any positive
tolerance of `v`. -/
theorem c6_smoother_first_call_and_convergence :
    (∀ v : ℚ, applyExponentialSmoothing v none = (v, some v)) ∧
    (∀ v prev : ℚ, applyExponentialSmoothing v (some prev) =
      (EMA_ALPHA * v + (1 - EMA_ALPHA) * prev,
       some (EMA_ALPHA * v + (1 - EMA_ALPHA) * prev))) ∧
    (∀ v s0 ε : ℚ, 0 < ε →
      ∃ n w, smoothStateN v (some s0) n = some w ∧ |w - v| < ε) := by
  refine ⟨fun v => rfl, fun v prev => rfl, fun v s0 ε hε => ?_⟩
  by_cases hs : s0 = v
  · refine ⟨0, s0, by rw [smoothStateN], ?_⟩
    rw [hs]
    simpa using hε
  · have habs : 0 < |s0 - v| := abs_pos.mpr (sub_ne_zero.mpr hs)
    obtain ⟨n, hn⟩ := exists_pow_lt_of_lt_one
      (div_pos hε habs) (show (9 / 10 : ℚ) < 1 by norm_num)
    refine ⟨n, v + (1 - EMA_ALPHA) ^ n * (s0 - v), smoothStateN_closed v s0 n, ?_⟩
    have h910 : (1 - EMA_ALPHA : ℚ) = 9 / 10 := by norm_num [EMA_ALPHA]
    have hsimp : |v + (1 - EMA_ALPHA) ^ n * (s0 - v) - v| =
        (9 / 10 : ℚ) ^ n * |s0 - v| := by
      rw [show v + (1 - EMA_ALPHA) ^ n * (s0 - v) - v =
        (1 - EMA_ALPHA) ^ n * (s0 - v) from by ring]
      rw [abs_mul, h910, abs_pow, show |(9 / 10 : ℚ)| = 9 / 10 from by norm_num]
    rw [hsimp]
    calc (9 / 10 : ℚ) ^ n * |s0 - v| < (ε / |s0 - v|) * |s0 - v| :=
          mul_lt_mul_of_pos_right hn habs
      _ = ε := div_mul_cancel₀ ε (ne_of_gt habs)

/-- Witness for C6 at concrete inputs. -/
theorem c6_witness :
    applyExponentialSmoothing 5 none = (5, some 5) ∧
    applyExponentialSmoothing 3 (some 7) =
      (EMA_ALPHA * 3 + (1 - EMA_ALPHA) * 7,
       some (EMA_ALPHA * 3 + (1 - EMA_ALPHA) * 7)) ∧
    (∃ n w, smoothStateN 0 (some 1) n = some w ∧ |w - 0| < (1 / 1000 : ℚ)) :=
  ⟨c6_smoother_first_call_and_convergence.1 5,
   c6_smoother_first_call_and_convergence.2.1 3 7,
   c6_smoother_first_call_and_convergence.2.2 0 1 (1 / 1000) (by norm_num)⟩

/-! ## Scan-loop lemmas for the primary-reflection search -/

theorem foldl_max_le (l : List Nat) : ∀ mv : Nat, mv ≤ l.foldl max mv := by
  induction l with
  | nil => intro mv; exact le_refl mv
  | cons a rest ih =>
    intro mv
    exact le_trans (le_max_left mv a) (ih (max mv a))

theorem mem_le_foldl_max (l : List Nat) :
    ∀ mv x : Nat, x ∈ l → x ≤ l.foldl max mv := by
  induction l with
  | nil => intro _ _ hx; cases hx
  | cons a rest ih =>
    intro mv x hx
    rw [List.foldl_cons]
    rcases List.mem_cons.mp hx with rfl | hx
    · exact le_trans (le_max_right mv x) (foldl_max_le rest (max mv x))
    · exact ih (max mv a) x hx

theorem scanFrom_fst (l : List Nat) :
    ∀ (i : Int) (mv : Nat) (mi : Int), (scanFrom l i mv mi).1 = l.foldl max mv := by
  induction l with
  | nil => intro i mv mi; rfl
  | cons a rest ih =>
    intro i mv mi
    rw [scanFrom, List.foldl_cons]
    by_cases h : mv < a
    · rw [if_pos h, ih, max_eq_right (le_of_lt h)]
    · rw [if_neg h, ih, max_eq_left (le_of_not_lt h)]

theorem scanFrom_all_le (l : List Nat) :
    ∀ (i : Int) (mv : Nat) (mi : Int), (∀ x ∈ l, x ≤ mv) →
      scanFrom l i mv mi = (mv, mi) := by
  induction l with
  | nil => intro i mv mi _; rfl
  | cons a rest ih =>
    intro i mv mi h
    rw [scanFrom, if_neg (not_lt_of_le (h a (List.mem_cons_self a rest)))]
    exact ih (i + 1) mv mi (fun x hx => h x (List.mem_cons_of_mem a hx))

theorem scanFrom_argmax (l : List Nat) :
    ∀ (i : Int) (mv : Nat) (mi : Int), (∃ x ∈ l, mv < x) →
      ∃ jm, jm < l.length ∧
        (scanFrom l i mv mi).1 = l.getD jm 0 ∧
        (scanFrom l i mv mi).2 = i + (jm : Int) ∧
        ∀ j < jm, l.getD j 0 < (scanFrom l i mv mi).1 := by
  induction l with
  | nil =>
    intro i mv mi h
    obtain ⟨x, hx, _⟩ := h
    cases hx
  | cons a rest ih =>
    intro i mv mi h
    by_cases hlt : mv < a
    · rw [scanFrom, if_pos hlt]
      by_cases hall : ∀ y ∈ rest, y ≤ a
      · refine ⟨0, by simp, ?_, ?_, ?_⟩
        · rw [scanFrom_all_le rest (i + 1) a i hall, List.getD_cons_zero]
        · rw [scanFrom_all_le rest (i + 1) a i hall]
          simp
        · intro j hj; omega
      · push_neg at hall
        obtain ⟨y, hy, hay⟩ := hall
        obtain ⟨jm, hjm, hv, hi, hprev⟩ := ih (i + 1) a i ⟨y, hy, hay⟩
        refine ⟨jm + 1, by simpa using Nat.succ_lt_succ hjm, ?_, ?_, ?_⟩
        · rw [hv, List.getD_cons_succ]
        · rw [hi]; push_cast; ring
        · intro j hj
          cases j with
          | zero =>
            rw [List.getD_cons_zero, scanFrom_fst]
            exact lt_of_lt_of_le hay (mem_le_foldl_max rest a y hy)
          | succ j =>
            rw [List.getD_cons_succ]
            exact hprev j (by omega)
    · rw [scanFrom, if_neg hlt]
      obtain ⟨x, hx, hmvx⟩ := h
      have hxrest : x ∈ rest := by
        rcases List.mem_cons.mp hx with rfl | hx'
        · exact absurd hmvx hlt
        · exact hx'
      obtain ⟨jm, hjm, hv, hi, hprev⟩ := ih (i + 1) mv mi ⟨x, hxrest, hmvx⟩
      refine ⟨jm + 1, by simpa using Nat.succ_lt_succ hjm, ?_, ?_, ?_⟩
      · rw [hv, List.getD_cons_succ]
      · rw [hi]; push_cast; ring
      · intro j hj
        cases j with
        | zero =>
          rw [List.getD_cons_zero, scanFrom_fst]
          have hxle : x ≤ rest.foldl max mv := mem_le_foldl_max rest mv x hxrest
          omega
        | succ j =>
          rw [List.getD_cons_succ]
          exact hprev j (by omega)

/-! ## Blind-zone and noise-floor evaluation helpers -/

theorem calculateNoiseFloor_nonneg (samples : List Nat) :
    0 ≤ calculateNoiseFloor samples := by
  rw [calculateNoiseFloor]
  split
  · exact le_refl 0
  · positivity

theorem getD_replicate_zero (n i : Nat) : (List.replicate n (0 : Nat)).getD i 0 = 0 := by
  rw [List.getD_eq_getElem?_getD, List.getElem?_replicate]
  split <;> rfl

theorem findBlindZoneEnd_zero_head (samples : List Nat) (hne : samples ≠ [])
    (h0 : samples.getD 0 0 = 0) (nf : ℚ) (hnf : 0 ≤ nf) :
    findBlindZoneEnd samples nf = 0 := by
  rw [findBlindZoneEnd]
  obtain ⟨m, hm⟩ : ∃ m, min samples.length 500 = m + 1 := by
    have := List.length_pos.mpr hne
    exact ⟨min samples.length 500 - 1, by omega⟩
  rw [hm, List.range_succ_eq_map, List.find?_cons]
  have hp : (decide ((samples.getD 0 0 : ℚ) ≤ nf * (12 / 10))) = true := by
    rw [h0, decide_eq_true_eq]
    push_cast
    positivity
  rw [hp]

/-- Unfolding `findPrimaryReflection` on a non-empty array. -/
theorem findPrimaryReflection_eq (samples : List Nat) (h : samples.length ≠ 0) :
    findPrimaryReflection samples =
      { value := (scanFrom
          (samples.drop (findBlindZoneEnd samples (calculateNoiseFloor samples)))
          ((findBlindZoneEnd samples (calculateNoiseFloor samples) : Nat) : Int)
          0 (-1)).1
        index := (scanFrom
          (samples.drop (findBlindZoneEnd samples (calculateNoiseFloor samples)))
          ((findBlindZoneEnd samples (calculateNoiseFloor samples) : Nat) : Int)
          0 (-1)).2
        distance := ((scanFrom
          (samples.drop (findBlindZoneEnd samples (calculateNoiseFloor samples)))
          ((findBlindZoneEnd samples (calculateNoiseFloor samples) : Nat) : Int)
          0 (-1)).2 : ℚ) * SAMPLE_RESOLUTION
        blindZoneEndIndex := findBlindZoneEnd samples (calculateNoiseFloor samples) } := by
  rw [findPrimaryReflection, if_neg h]

/-! ## Claim C5: the primary-reflection scan -/

theorem getD_mem_of_lt (l : List Nat) (j : Nat) (h : j < l.length) :
    l.getD j 0 ∈ l := by
  rw [List.getD_eq_getElem l 0 h]
  exact List.getElem_mem h

/-- C5: the scan over `samples[blindZoneEnd, N)` returns the maximum value and
the lowest index attaining it (strict `>`, first occurrence wins); an
all-zero array gives `value = 0, index = -1`, and so does
`blindZoneEnd >= N`. -/
theorem c5_scan_max_first_occurrence (samples : List Nat) :
    ((∀ j, j < samples.length → samples.getD j 0 = 0) →
      (findPrimaryReflection samples).value = 0 ∧
      (findPrimaryReflection samples).index = -1) ∧
    (samples.length ≤ (findPrimaryReflection samples).blindZoneEndIndex →
      (findPrimaryReflection samples).value = 0 ∧
      (findPrimaryReflection samples).index = -1) ∧
    ((∃ j, (findPrimaryReflection samples).blindZoneEndIndex ≤ j ∧
        j < samples.length ∧ 0 < samples.getD j 0) →
      ∃ jm, (findPrimaryReflection samples).blindZoneEndIndex ≤ jm ∧
        jm < samples.length ∧
        (findPrimaryReflection samples).index = (jm : Int) ∧
        (findPrimaryReflection samples).value = samples.getD jm 0 ∧
        (∀ j, (findPrimaryReflection samples).blindZoneEndIndex ≤ j →
          j < samples.length →
          samples.getD j 0 ≤ (findPrimaryReflection samples).value) ∧
        (∀ j, (findPrimaryReflection samples).blindZoneEndIndex ≤ j → j < jm →
          samples.getD j 0 < (findPrimaryReflection samples).value)) := by
  by_cases hnil : samples.length = 0
  · have hsam : samples = [] := List.eq_nil_of_length_eq_zero hnil
    subst hsam
    refine ⟨fun _ => ⟨rfl, rfl⟩, fun _ => ⟨rfl, rfl⟩, fun hex => ?_⟩
    obtain ⟨j, _, hj, _⟩ := hex
    simp at hj
  · rw [findPrimaryReflection_eq samples hnil]
    dsimp only
    set s := findBlindZoneEnd samples (calculateNoiseFloor samples) with hs
    refine ⟨?_, ?_, ?_⟩
    · intro hzero
      have hall : ∀ x ∈ samples.drop s, x ≤ 0 := by
        intro x hx
        obtain ⟨n, hn, hget⟩ := List.mem_iff_getElem.mp hx
        have : (samples.drop s).getD n 0 = x := by
          rw [List.getD_eq_getElem _ 0 hn, hget]
        rw [getD_drop_zero] at this
        have hlt : s + n < samples.length := by
          have := List.length_drop s samples ▸ hn
          omega
        rw [hzero (s + n) hlt] at this
        omega
      rw [scanFrom_all_le _ _ _ _ hall]
      exact ⟨rfl, rfl⟩
    · intro hge
      rw [List.drop_eq_nil_of_le hge]
      exact ⟨rfl, rfl⟩
    · intro hex
      obtain ⟨j, hsj, hjlen, hjpos⟩ := hex
      have hwin : ∃ x ∈ samples.drop s, 0 < x := by
        refine ⟨(samples.drop s).getD (j - s) 0, ?_, ?_⟩
        · apply getD_mem_of_lt
          rw [List.length_drop]
          omega
        · rw [getD_drop_zero, show s + (j - s) = j from by omega]
          exact hjpos
      obtain ⟨jm, hjm, hv, hi, hprev⟩ := scanFrom_argmax (samples.drop s)
        ((s : Nat) : Int) 0 (-1) hwin
      rw [List.length_drop] at hjm
      refine ⟨s + jm, by omega, by omega, ?_, ?_, ?_, ?_⟩
      · rw [hi]; push_cast; ring
      · rw [hv, getD_drop_zero]
      · intro j' hsj' hj'len
        rw [scanFrom_fst]
        have : samples.getD j' 0 = (samples.drop s).getD (j' - s) 0 := by
          rw [getD_drop_zero, show s + (j' - s) = j' from by omega]
        rw [this]
        apply mem_le_foldl_max
        apply getD_mem_of_lt
        rw [List.length_drop]
        omega
      · intro j' hsj' hj'jm
        have : samples.getD j' 0 = (samples.drop s).getD (j' - s) 0 := by
          rw [getD_drop_zero, show s + (j' - s) = j' from by omega]
        rw [this]
        exact hprev (j' - s) (by omega)

/-- Witness for C5: conjunct 2 on `[5]` (all samples above the threshold, so
the fallback blind-zone index 150 exceeds the length) and conjunct 1 on a
small all-zero array. -/
theorem c5_witness :
    ((findPrimaryReflection [5]).value = 0 ∧
      (findPrimaryReflection [5]).index = -1) ∧
    ((findPrimaryReflection (List.replicate 10 0)).value = 0 ∧
      (findPrimaryReflection (List.replicate 10 0)).index = -1) := by
  constructor
  · apply (c5_scan_max_first_occurrence [5]).2.1
    rw [findPrimaryReflection_eq [5] (by norm_num)]
    have hbz : findBlindZoneEnd [5] (calculateNoiseFloor [5]) = 150 := by
      have hnf : calculateNoiseFloor [5] = 0 := by
        rw [calculateNoiseFloor, if_pos (by norm_num [NOISE_FLOOR_RANGE])]
      rw [findBlindZoneEnd]
      simp only [hnf]
      rw [show min ([5] : List Nat).length 500 = 1 from by norm_num]
      have hnone : (List.range 1).find?
          (fun i => decide ((([5] : List Nat).getD i 0 : ℚ) ≤ 0 * (12 / 10))) = none := by
        rw [List.find?_eq_none]
        intro i hi
        rw [List.mem_range] at hi
        obtain rfl : i = 0 := by omega
        simp only [List.getD_cons_zero, decide_eq_true_eq, not_le]
        norm_num
      rw [hnone]
    rw [hbz]
    dsimp only
    norm_num
  · apply (c5_scan_max_first_occurrence (List.replicate 10 0)).1
    intro j _
    exact getD_replicate_zero 10 j

/-! ## Claims C10 and C1: negative distance and the low-quality policy -/

/-- In `sonarPacketHandler` the smoother state is updated from the frame's raw
distance on both sides of the quality test. -/
theorem sonarStep_state (samples : List Nat) (st : Option ℚ) :
    (sonarStep samples st).state =
      (applyExponentialSmoothing (findPrimaryReflection samples).distance st).2 := by
  rw [sonarStep]
  split <;> rfl

theorem sonarStep_sent_of_lt (samples : List Nat) (st : Option ℚ)
    (h : (findPrimaryReflection samples).value < 50) :
    (sonarStep samples st).sent = false := by
  rw [sonarStep, if_pos h]

/-- C10: with no strictly positive sample at or after the blind-zone end, the
reflection has `index = -1` and `distance = -SAMPLE_RESOLUTION = -0.2178`
(not 0), and that negative raw distance is still fed to the smoother. -/
theorem c10_no_echo_negative_distance (samples : List Nat) (st : Option ℚ)
    (hne : samples ≠ [])
    (hzero : ∀ j, (findPrimaryReflection samples).blindZoneEndIndex ≤ j →
      j < samples.length → samples.getD j 0 = 0) :
    (findPrimaryReflection samples).index = -1 ∧
    (findPrimaryReflection samples).distance = -SAMPLE_RESOLUTION ∧
    (findPrimaryReflection samples).distance ≠ 0 ∧
    (sonarStep samples st).state =
      (applyExponentialSmoothing (-SAMPLE_RESOLUTION) st).2 := by
  have hlen : samples.length ≠ 0 := fun h => hne (List.eq_nil_of_length_eq_zero h)
  rw [findPrimaryReflection_eq samples hlen] at hzero ⊢
  dsimp only at hzero ⊢
  set s := findBlindZoneEnd samples (calculateNoiseFloor samples) with hs
  have hall : ∀ x ∈ samples.drop s, x ≤ 0 := by
    intro x hx
    obtain ⟨n, hn, hget⟩ := List.mem_iff_getElem.mp hx
    have hx' : (samples.drop s).getD n 0 = x := by
      rw [List.getD_eq_getElem _ 0 hn, hget]
    rw [getD_drop_zero] at hx'
    have hlt : s + n < samples.length := by
      have := List.length_drop s samples ▸ hn
      omega
    rw [hzero (s + n) (by omega) hlt] at hx'
    omega
  rw [scanFrom_all_le _ _ _ _ hall]
  refine ⟨rfl, ?_, ?_, ?_⟩
  · push_cast
    ring
  · rw [show (((-1 : Int) : ℚ) * SAMPLE_RESOLUTION) = -SAMPLE_RESOLUTION from by
      push_cast; ring]
    norm_num [SAMPLE_RESOLUTION]
  · rw [sonarStep_state, findPrimaryReflection_eq samples hlen, ← hs,
      scanFrom_all_le _ _ _ _ hall]
    congr 1
    push_cast
    ring

/-- Witness for C10 on a small all-zero frame with empty smoother state. -/
theorem c10_witness :
    (findPrimaryReflection (List.replicate 10 0)).index = -1 ∧
    (findPrimaryReflection (List.replicate 10 0)).distance = -SAMPLE_RESOLUTION ∧
    (findPrimaryReflection (List.replicate 10 0)).distance ≠ 0 ∧
    (sonarStep (List.replicate 10 0) none).state =
      (applyExponentialSmoothing (-SAMPLE_RESOLUTION) none).2 :=
  c10_no_echo_negative_distance (List.replicate 10 0) none
    (by simp)
    (fun j _ _ => getD_replicate_zero 10 j)

/-- C1 fails on the code: a frame whose reflection value (0) is below the
quality threshold still drives the smoother, changing `lastSmoothedDistance`
from `null` to a real value. -/
theorem c1_counterexample :
    (findPrimaryReflection (List.replicate 10 0)).value < 50 ∧
    (sonarStep (List.replicate 10 0) none).state ≠ none := by
  have h10 := c10_no_echo_negative_distance (List.replicate 10 0) none
    (by simp) (fun j _ _ => getD_replicate_zero 10 j)
  constructor
  · have hlen : (List.replicate 10 (0 : Nat)).length ≠ 0 := by simp
    rw [findPrimaryReflection_eq _ hlen]
    have hall : ∀ x ∈ (List.replicate 10 (0 : Nat)).drop
        (findBlindZoneEnd (List.replicate 10 0)
          (calculateNoiseFloor (List.replicate 10 0))), x ≤ 0 := by
      intro x hx
      have := List.mem_of_mem_drop hx
      rw [List.mem_replicate] at this
      omega
    rw [scanFrom_all_le _ _ _ _ hall]
    dsimp only
    norm_num
  · rw [h10.2.2.2]
    simp [applyExponentialSmoothing]

/-- C1 amended: a below-threshold reflection is not disseminated, but the
smoother is still invoked with its raw distance — the state becomes the EMA
update, which differs from the previous state whenever the raw distance does
not equal the previously smoothed value. -/
theorem c1_amended_low_quality_still_smoothed (samples : List Nat)
    (st : Option ℚ) (h : (findPrimaryReflection samples).value < 50) :
    (sonarStep samples st).sent = false ∧
    (sonarStep samples st).state =
      (applyExponentialSmoothing (findPrimaryReflection samples).distance st).2 ∧
    (∀ d0 : ℚ, st = some d0 →
      d0 ≠ (findPrimaryReflection samples).distance →
      (sonarStep samples st).state ≠ st) := by
  refine ⟨sonarStep_sent_of_lt samples st h, sonarStep_state samples st, ?_⟩
  intro d0 hst hd0
  subst hst
  rw [sonarStep_state]
  intro heq
  have heq2 : EMA_ALPHA * (findPrimaryReflection samples).distance +
      (1 - EMA_ALPHA) * d0 = d0 := Option.some.inj heq
  apply hd0
  have : EMA_ALPHA * d0 = EMA_ALPHA * (findPrimaryReflection samples).distance := by
    ring_nf
    ring_nf at heq2
    linarith
  exact mul_left_cancel₀ (show (EMA_ALPHA : ℚ) ≠ 0 from by norm_num [EMA_ALPHA]) this

/-- Witness for the amended C1 at a concrete low-quality frame with a prior
smoothed state. -/
theorem c1_amended_witness :
    (sonarStep (List.replicate 10 0) (some 1)).sent = false ∧
    (sonarStep (List.replicate 10 0) (some 1)).state =
      (applyExponentialSmoothing
        (findPrimaryReflection (List.replicate 10 0)).distance (some 1)).2 ∧
    (∀ d0 : ℚ, (some 1 : Option ℚ) = some d0 →
      d0 ≠ (findPrimaryReflection (List.replicate 10 0)).distance →
      (sonarStep (List.replicate 10 0) (some 1)).state ≠ some 1) := by
  apply c1_amended_low_quality_still_smoothed
  have hlen : (List.replicate 10 (0 : Nat)).length ≠ 0 := by simp
  rw [findPrimaryReflection_eq _ hlen]
  have hall : ∀ x ∈ (List.replicate 10 (0 : Nat)).drop
      (findBlindZoneEnd (List.replicate 10 0)
        (calculateNoiseFloor (List.replicate 10 0))), x ≤ 0 := by
    intro x hx
    have := List.mem_of_mem_drop hx
    rw [List.mem_replicate] at this
    omega
  rw [scanFrom_all_le _ _ _ _ hall]
  dsimp only
  norm_num

/-! ## Claim C9: the buffer invariant -/

/-- C9: after every data event the accumulated buffer holds strictly fewer
than `PACKET_SIZE` bytes, and a buffer of at least `PACKET_SIZE` bytes with no
header byte anywhere is discarded entirely. -/
theorem c9_buffer_drained :
    (∀ buffer chunk : List Nat,
      ((part000Ingest buffer chunk).2).length < PACKET_SIZE) ∧
    (∀ buffer chunk : List Nat,
      HEADER_BYTE ∉ buffer ++ chunk → PACKET_SIZE ≤ (buffer ++ chunk).length →
      part000Ingest buffer chunk = ([], [])) := by
  constructor
  · intro buffer chunk
    exact processLoop_leftover (buffer ++ chunk).length (buffer ++ chunk) le_rfl
  · intro buffer chunk hmem hlen
    rw [part000Ingest]
    apply processLoop_no_header _ _ hmem hlen
    have hpos : (0 : Nat) < PACKET_SIZE := by norm_num [PACKET_SIZE, NUM_SAMPLES]
    omega

/-- Witness for C9: a junk buffer with no header byte is fully discarded, and
a short chunk is left in place (still below the packet size). -/
theorem c9_witness :
    part000Ingest [] (List.replicate PACKET_SIZE 0) = ([], []) ∧
    ((part000Ingest [] [1, 2, 3]).2).length < PACKET_SIZE := by
  constructor
  · apply c9_buffer_drained.2
    · rw [List.nil_append]
      intro hmem
      rw [List.mem_replicate] at hmem
      exact absurd hmem.2 (by norm_num [HEADER_BYTE])
    · rw [List.nil_append, List.length_replicate]
  · exact c9_buffer_drained.1 [] [1, 2, 3]

/-! ## XOR and list-surgery helpers for the console_1800 decoder -/

theorem natXor_assoc (a b c : Nat) :
    Nat.xor (Nat.xor a b) c = Nat.xor a (Nat.xor b c) := Nat.xor_assoc a b c

theorem natXor_comm (a b : Nat) : Nat.xor a b = Nat.xor b a := Nat.xor_comm a b

theorem natXor_zero (a : Nat) : Nat.xor a 0 = a := Nat.xor_zero a

theorem natZero_xor (a : Nat) : Nat.xor 0 a = a := Nat.zero_xor a

theorem natXor_self (a : Nat) : Nat.xor a a = 0 := Nat.xor_self a

theorem foldl_xor_acc (l : List Nat) :
    ∀ a, l.foldl Nat.xor a = Nat.xor a (l.foldl Nat.xor 0) := by
  induction l with
  | nil => intro a; exact (natXor_zero a).symm
  | cons b t ih =>
    intro a
    rw [List.foldl_cons, List.foldl_cons, ih (Nat.xor a b), ih (Nat.xor 0 b),
      natZero_xor, natXor_assoc]

theorem xor_mask_ne (c m : Nat) (hm : m ≠ 0) : Nat.xor c m ≠ c := by
  intro h
  apply hm
  have h2 : Nat.xor c (Nat.xor c m) = Nat.xor c c := congrArg (Nat.xor c) h
  rw [← natXor_assoc, natXor_self, natZero_xor] at h2
  exact h2

theorem foldl_xor_set (l : List Nat) :
    ∀ (i m : Nat), i < l.length →
      (l.set i (Nat.xor (l.getD i 0) m)).foldl Nat.xor 0 =
        Nat.xor (l.foldl Nat.xor 0) m := by
  induction l with
  | nil => intro i m h; simp at h
  | cons a t ih =>
    intro i m h
    cases i with
    | zero =>
      rw [List.getD_cons_zero, List.set_cons_zero, List.foldl_cons,
        List.foldl_cons, natZero_xor, natZero_xor, foldl_xor_acc t a,
        foldl_xor_acc t (Nat.xor a m), natXor_assoc, natXor_assoc,
        natXor_comm m (t.foldl Nat.xor 0)]
    | succ i =>
      rw [List.getD_cons_succ, List.set_cons_succ, List.foldl_cons,
        List.foldl_cons, natZero_xor, foldl_xor_acc t a,
        foldl_xor_acc (t.set i (Nat.xor (t.getD i 0) m)) a,
        ih i m (by simpa using h), natXor_assoc]

theorem take_set_lt (l : List Nat) :
    ∀ (i n v : Nat), i < n → (l.set i v).take n = (l.take n).set i v := by
  induction l with
  | nil =>
    intro i n v _
    rw [show ([] : List Nat).set i v = [] from by cases i <;> rfl, List.take_nil]
    exact (show ([] : List Nat).set i v = [] from by cases i <;> rfl).symm
  | cons a t ih =>
    intro i n v h
    cases i with
    | zero =>
      obtain ⟨m, rfl⟩ : ∃ m, n = m + 1 := ⟨n - 1, by omega⟩
      rw [List.set_cons_zero, List.take_succ_cons, List.take_succ_cons,
        List.set_cons_zero]
    | succ i =>
      obtain ⟨m, rfl⟩ : ∃ m, n = m + 1 := ⟨n - 1, by omega⟩
      rw [List.set_cons_succ, List.take_succ_cons, List.take_succ_cons,
        List.set_cons_succ, ih i m v (by omega)]

theorem getD_take_lt (l : List Nat) (n i : Nat) (h : i < n) :
    (l.take n).getD i 0 = l.getD i 0 := by
  rw [List.getD_eq_getElem?_getD, List.getD_eq_getElem?_getD,
    List.getElem?_take, if_pos h]

theorem getD_set_ne (l : List Nat) (k j v : Nat) (h : k ≠ j) :
    (l.set k v).getD j 0 = l.getD j 0 := by
  rw [List.getD_eq_getElem?_getD, List.getD_eq_getElem?_getD,
    List.getElem?_set_ne h]

/-! ## console_1800 decoder lemmas -/

theorem PAYLOAD_LEN_eq : PAYLOAD_LEN = PACKET_SIZE - 2 := by
  rw [PAYLOAD_LEN, PACKET_SIZE]
  omega

theorem PACKET_LEN_eq : PACKET_LEN = PACKET_SIZE := by
  rw [PACKET_LEN, PAYLOAD_LEN, PACKET_SIZE]
  omega

theorem PACKET_LEN_pos : 0 < PACKET_LEN := by
  rw [PACKET_LEN, PAYLOAD_LEN]
  omega

theorem c1800FindHeader_head (buf : List Nat) (hlen : PACKET_LEN ≤ buf.length)
    (hhead : buf.getD 0 0 = HEADER_BYTE) : c1800FindHeader buf = some 0 := by
  rw [c1800FindHeader, if_neg (by omega), List.range_succ_eq_map]
  have hh2 : buf[0]?.getD 0 = HEADER_BYTE := by
    rw [← List.getD_eq_getElem?_getD]
    exact hhead
  simp [List.find?_cons, hh2]

theorem c1800FindHeader_some (buf : List Nat) (h : Nat)
    (hf : c1800FindHeader buf = some h) :
    h + PACKET_LEN ≤ buf.length ∧ buf.getD h 0 = HEADER_BYTE := by
  rw [c1800FindHeader] at hf
  by_cases hs : buf.length < PACKET_LEN
  · rw [if_pos hs] at hf; cases hf
  · rw [if_neg hs] at hf
    have hmem := List.mem_of_find?_eq_some hf
    have hp := List.find?_some hf
    rw [List.mem_range] at hmem
    refine ⟨by omega, ?_⟩
    simpa using hp

theorem extractLoop_eq_mismatch (fuel : Nat) (buf : List Nat) (h : Nat)
    (hfind : c1800FindHeader buf = some h)
    (hmm : xorChecksum (payloadAt buf h) ≠
      (candidateAt buf h).getD (PACKET_LEN - 1) 0) :
    extractLoop (fuel + 1) buf = extractLoop fuel (buf.drop (h + 1)) := by
  rw [extractLoop, hfind]
  dsimp only
  rw [if_pos hmm]

theorem extractLoop_eq_ok (fuel : Nat) (buf : List Nat) (h : Nat)
    (hfind : c1800FindHeader buf = some h)
    (hok : xorChecksum (payloadAt buf h) =
      (candidateAt buf h).getD (PACKET_LEN - 1) 0) :
    extractLoop (fuel + 1) buf =
      (some (parseC1800 (payloadAt buf h)), buf.drop (h + PACKET_LEN)) := by
  rw [extractLoop, hfind]
  dsimp only
  rw [if_neg (fun hne => hne hok)]

theorem extractLoop_short (fuel : Nat) (buf : List Nat)
    (hs : buf.length < PACKET_LEN) : extractLoop fuel buf = (none, buf) := by
  cases fuel with
  | zero => rfl
  | succ fuel =>
    rw [extractLoop, c1800FindHeader, if_pos hs]

/-- Soundness of `extractAndProcessPacket`: every packet it returns comes from
a candidate position whose XOR checksum matched the received byte, and the
buffer is consumed exactly through that candidate. -/
theorem extractLoop_sound (fuel : Nat) :
    ∀ (buf : List Nat) (p : C1800Packet) (rest : List Nat),
      extractLoop fuel buf = (some p, rest) →
      ∃ h, h + PACKET_LEN ≤ buf.length ∧ buf.getD h 0 = HEADER_BYTE ∧
        xorChecksum (payloadAt buf h) =
          (candidateAt buf h).getD (PACKET_LEN - 1) 0 ∧
        p = parseC1800 (payloadAt buf h) ∧
        rest = buf.drop (h + PACKET_LEN) := by
  induction fuel with
  | zero =>
    intro buf p rest hev
    rw [extractLoop] at hev
    exact absurd (congrArg Prod.fst hev) (by simp)
  | succ fuel ih =>
    intro buf p rest hev
    cases hfind : c1800FindHeader buf with
    | none =>
      rw [extractLoop, hfind] at hev
      exact absurd (congrArg Prod.fst hev) (by simp)
    | some h =>
      obtain ⟨hlen, hhead⟩ := c1800FindHeader_some buf h hfind
      by_cases hmm : xorChecksum (payloadAt buf h) ≠
          (candidateAt buf h).getD (PACKET_LEN - 1) 0
      · rw [extractLoop_eq_mismatch fuel buf h hfind hmm] at hev
        obtain ⟨h2, hlen2, hhead2, hok2, hp2, hrest2⟩ := ih _ _ _ hev
        have hcand : candidateAt (buf.drop (h + 1)) h2 =
            candidateAt buf (h + 1 + h2) := by
          rw [candidateAt, candidateAt, List.drop_drop]
        have hpay : payloadAt (buf.drop (h + 1)) h2 =
            payloadAt buf (h + 1 + h2) := by
          rw [payloadAt, payloadAt, hcand]
        refine ⟨h + 1 + h2, ?_, ?_, ?_, ?_, ?_⟩
        · rw [List.length_drop] at hlen2
          have hp := PACKET_LEN_pos
          omega
        · rw [getD_drop_zero] at hhead2; exact hhead2
        · rw [hpay, hcand] at hok2; exact hok2
        · rw [hpay] at hp2; exact hp2
        · rw [List.drop_drop,
            show h + 1 + (h2 + PACKET_LEN) = h + 1 + h2 + PACKET_LEN from by omega]
            at hrest2
          exact hrest2
      · push_neg at hmm
        rw [extractLoop_eq_ok fuel buf h hfind hmm] at hev
        rw [Prod.mk.injEq] at hev
        obtain ⟨h1, h2⟩ := hev
        exact ⟨h, hlen, hhead, hmm, (Option.some.inj h1).symm, h2.symm⟩

/-! ## Single-bit corruption of a valid frame (console_1800) -/

/-- Flip the bits selected by `mask` in the byte at position `k`. -/
def flipByte (l : List Nat) (k mask : Nat) : List Nat :=
  l.set k (Nat.xor (l.getD k 0) mask)

theorem payloadAt_zero_of_len (buf : List Nat) (_hlen : PACKET_LEN ≤ buf.length) :
    payloadAt buf 0 = (buf.drop 1).take PAYLOAD_LEN := by
  rw [payloadAt, candidateAt, List.drop_zero, List.drop_take, List.take_take]
  congr 1

theorem payload_length_of_len (buf : List Nat) (hlen : PACKET_LEN ≤ buf.length) :
    (payloadAt buf 0).length = PAYLOAD_LEN := by
  rw [payloadAt_zero_of_len buf hlen, List.length_take, List.length_drop]
  rw [PACKET_LEN] at hlen
  rw [PAYLOAD_LEN] at hlen ⊢
  omega

/-- Flipping any bit of any payload byte of a well-formed checksummed frame
makes `extractAndProcessPacket` yield nothing. -/
theorem extractLoop_flip_none (F : List Nat) (k b fuel : Nat)
    (hlen : F.length = PACKET_LEN)
    (hhead : F.getD 0 0 = HEADER_BYTE)
    (hvalid : xorChecksum (payloadAt F 0) =
      (candidateAt F 0).getD (PACKET_LEN - 1) 0)
    (hk1 : 1 ≤ k) (hk2 : k ≤ PACKET_LEN - 2) (_hb : b < 8) :
    (extractLoop fuel (flipByte F k (2 ^ b))).1 = none := by
  have hplen : (0 : Nat) < PAYLOAD_LEN := by rw [PAYLOAD_LEN]; omega
  have hpl2 : PACKET_LEN = PAYLOAD_LEN + 2 := by rw [PACKET_LEN]; omega
  cases fuel with
  | zero => rfl
  | succ fuel =>
    set buf := flipByte F k (2 ^ b) with hbuf
    have hlen2 : buf.length = PACKET_LEN := by
      rw [hbuf, flipByte, List.length_set, hlen]
    have hhead2 : buf.getD 0 0 = HEADER_BYTE := by
      rw [hbuf, flipByte, getD_set_ne F k 0 _ (by omega), hhead]
    have hfind : c1800FindHeader buf = some 0 :=
      c1800FindHeader_head buf (by omega) hhead2
    have hFpay : payloadAt F 0 = (F.drop 1).take PAYLOAD_LEN :=
      payloadAt_zero_of_len F (by omega)
    have hdrop1 : buf.drop 1 = (F.drop 1).set (k - 1) (Nat.xor (F.getD k 0) (2 ^ b)) := by
      rw [hbuf, flipByte, List.drop_set, if_neg (by omega)]
    have hbufpay : payloadAt buf 0 =
        (payloadAt F 0).set (k - 1) (Nat.xor ((payloadAt F 0).getD (k - 1) 0) (2 ^ b)) := by
      rw [payloadAt_zero_of_len buf (by omega), hdrop1,
        take_set_lt _ _ _ _ (by omega), ← hFpay]
      congr 2
      rw [hFpay, getD_take_lt _ _ _ (by omega), getD_drop_zero,
        show 1 + (k - 1) = k from by omega]
    have hchk : xorChecksum (payloadAt buf 0) =
        Nat.xor (xorChecksum (payloadAt F 0)) (2 ^ b) := by
      rw [hbufpay, xorChecksum, xorChecksum]
      exact foldl_xor_set (payloadAt F 0) (k - 1) (2 ^ b)
        (by rw [payload_length_of_len F (by omega)]; omega)
    have hrecv : (candidateAt buf 0).getD (PACKET_LEN - 1) 0 =
        (candidateAt F 0).getD (PACKET_LEN - 1) 0 := by
      rw [candidateAt, candidateAt, List.drop_zero, List.drop_zero,
        getD_take_lt _ _ _ (by omega), getD_take_lt _ _ _ (by omega),
        hbuf, flipByte, getD_set_ne F k _ _ (by omega)]
    have hmm : xorChecksum (payloadAt buf 0) ≠
        (candidateAt buf 0).getD (PACKET_LEN - 1) 0 := by
      rw [hchk, hrecv, ← hvalid]
      exact xor_mask_ne _ _ (by positivity)
    rw [extractLoop_eq_mismatch fuel buf 0 hfind hmm]
    have hshort : (buf.drop (0 + 1)).length < PACKET_LEN := by
      rw [List.length_drop]
      omega
    rw [extractLoop_short fuel _ hshort]

/-! ## Evaluating the console_1800 decoder on the concrete zero frame -/

theorem readUInt16BE_replicate_zero (n i : Nat) :
    readUInt16BE (List.replicate n 0) i = 0 := by
  rw [readUInt16BE, List.getD_eq_getElem?_getD, List.getD_eq_getElem?_getD,
    List.getElem?_replicate, List.getElem?_replicate]
  by_cases h1 : i < n <;> by_cases h2 : i + 1 < n <;> simp [h1, h2]

theorem zeroPayloadFrame_getD_last (c : Nat) :
    (zeroPayloadFrame c).getD (PACKET_SIZE - 1) 0 = c := by
  rw [zeroPayloadFrame, List.getD_eq_getElem?_getD,
    show PACKET_SIZE - 1 = (6 + 2 * NUM_SAMPLES) + 1 from by rw [PACKET_SIZE]; omega,
    List.getElem?_cons_succ,
    List.getElem?_append_right (by rw [List.length_replicate]),
    List.length_replicate]
  simp

theorem candidateAt_zeroPayloadFrame (c : Nat) :
    candidateAt (zeroPayloadFrame c) 0 = zeroPayloadFrame c := by
  rw [candidateAt, List.drop_zero, PACKET_LEN_eq, ← zeroPayloadFrame_length c,
    List.take_length]

theorem payloadAt_zeroPayloadFrame (c : Nat) :
    payloadAt (zeroPayloadFrame c) 0 = List.replicate (6 + 2 * NUM_SAMPLES) 0 := by
  rw [payloadAt, candidateAt_zeroPayloadFrame,
    show (zeroPayloadFrame c).drop 1 =
      List.replicate (6 + 2 * NUM_SAMPLES) 0 ++ [c] from rfl]
  exact List.take_append_of_le_length (by rw [List.length_replicate, PAYLOAD_LEN])
    |>.trans (List.take_of_length_le (by rw [List.length_replicate, PAYLOAD_LEN]))

theorem parseC1800_zero_payload :
    parseC1800 (List.replicate (6 + 2 * NUM_SAMPLES) 0) =
      { depthIndex := 0, tempScaled := 0, vDrvScaled := 0,
        values := List.replicate NUM_SAMPLES 0 } := by
  have hsamples : chunkPairs ((List.replicate (6 + 2 * NUM_SAMPLES) 0).drop 6) =
      List.replicate NUM_SAMPLES 0 := by
    rw [List.drop_replicate, show 6 + 2 * NUM_SAMPLES - 6 = 2 * NUM_SAMPLES from by omega]
    exact chunkPairs_replicate_zero NUM_SAMPLES
  rw [parseC1800]
  simp only [readUInt16BE_replicate_zero, hsamples]
  rfl

theorem zeroFrame_valid_console :
    zeroFrame.length = PACKET_LEN ∧ zeroFrame.getD 0 0 = HEADER_BYTE ∧
      xorChecksum (payloadAt zeroFrame 0) =
        (candidateAt zeroFrame 0).getD (PACKET_LEN - 1) 0 := by
  refine ⟨by rw [PACKET_LEN_eq]; exact zeroPayloadFrame_length 0, rfl, ?_⟩
  rw [zeroFrame, payloadAt_zeroPayloadFrame, candidateAt_zeroPayloadFrame,
    PACKET_LEN_eq, zeroPayloadFrame_getD_last, xorChecksum,
    foldl_xor_replicate_zero]

theorem extractLoop_zeroFrame (fuel : Nat) :
    extractLoop (fuel + 1) zeroFrame =
      (some { depthIndex := 0, tempScaled := 0, vDrvScaled := 0,
              values := List.replicate NUM_SAMPLES 0 }, []) := by
  obtain ⟨hl, hh, hok⟩ := zeroFrame_valid_console
  rw [extractLoop_eq_ok fuel zeroFrame 0 (c1800FindHeader_head zeroFrame (by omega) hh) hok,
    zeroFrame, payloadAt_zeroPayloadFrame, parseC1800_zero_payload]
  rw [show (0 : Nat) + PACKET_LEN = PACKET_LEN from by omega, PACKET_LEN_eq,
    ← zeroPayloadFrame_length 0, List.drop_length]

/-! ## Recovery of a frame hidden behind a spurious header byte -/

theorem consHeader_zeroFrame_find :
    c1800FindHeader (HEADER_BYTE :: zeroFrame) = some 0 := by
  apply c1800FindHeader_head
  · rw [List.length_cons, PACKET_LEN_eq, zeroFrame, zeroPayloadFrame_length]
    omega
  · rfl

theorem payloadAt_consHeader_zeroFrame :
    payloadAt (HEADER_BYTE :: zeroFrame) 0 =
      HEADER_BYTE :: List.replicate (PAYLOAD_LEN - 1) 0 := by
  rw [payloadAt_zero_of_len _ (by
      rw [List.length_cons, PACKET_LEN_eq, zeroFrame, zeroPayloadFrame_length]
      omega)]
  rw [List.drop_one, List.tail_cons, zeroFrame, zeroPayloadFrame,
    show PAYLOAD_LEN = (PAYLOAD_LEN - 1) + 1 from by rw [PAYLOAD_LEN]; omega,
    List.take_succ_cons,
    List.take_append_of_le_length (by rw [List.length_replicate, PAYLOAD_LEN]; omega),
    List.take_replicate,
    show (PAYLOAD_LEN - 1) ⊓ (6 + 2 * NUM_SAMPLES) = PAYLOAD_LEN - 1 from by
      rw [PAYLOAD_LEN]; omega,
    show PAYLOAD_LEN - 1 + 1 - 1 = PAYLOAD_LEN - 1 from by omega]

theorem zeroFrame_getD_payload_end : zeroFrame.getD (PACKET_LEN - 2) 0 = 0 := by
  rw [zeroFrame, zeroPayloadFrame, List.getD_eq_getElem?_getD,
    show PACKET_LEN - 2 = (6 + 2 * NUM_SAMPLES - 1) + 1 from by
      rw [PACKET_LEN, PAYLOAD_LEN]; omega,
    List.getElem?_cons_succ,
    List.getElem?_append_left (by rw [List.length_replicate]; omega),
    List.getElem?_replicate, if_pos (by omega)]
  rfl

theorem consHeader_zeroFrame_mismatch :
    xorChecksum (payloadAt (HEADER_BYTE :: zeroFrame) 0) ≠
      (candidateAt (HEADER_BYTE :: zeroFrame) 0).getD (PACKET_LEN - 1) 0 := by
  have hchk : xorChecksum (payloadAt (HEADER_BYTE :: zeroFrame) 0) = HEADER_BYTE := by
    rw [payloadAt_consHeader_zeroFrame, xorChecksum, List.foldl_cons, natZero_xor,
      foldl_xor_replicate_zero]
  have hrecv : (candidateAt (HEADER_BYTE :: zeroFrame) 0).getD (PACKET_LEN - 1) 0 = 0 := by
    rw [candidateAt, List.drop_zero,
      getD_take_lt _ _ _ (by have := PACKET_LEN_pos; omega),
      show PACKET_LEN - 1 = (PACKET_LEN - 2) + 1 from by
        rw [PACKET_LEN, PAYLOAD_LEN]; omega,
      List.getD_cons_succ, zeroFrame_getD_payload_end]
  rw [hchk, hrecv, HEADER_BYTE]
  omega

/-- A checksum-failing candidate consumes only its header byte: the valid
frame starting one byte later is still recovered in full. -/
theorem extractLoop_recovery (fuel : Nat) :
    extractLoop (fuel + 2) (HEADER_BYTE :: zeroFrame) =
      (some { depthIndex := 0, tempScaled := 0, vDrvScaled := 0,
              values := List.replicate NUM_SAMPLES 0 }, []) := by
  rw [extractLoop_eq_mismatch (fuel + 1) _ 0 consHeader_zeroFrame_find
    consHeader_zeroFrame_mismatch]
  rw [show (0 : Nat) + 1 = 1 from rfl, List.drop_one, List.tail_cons]
  exact extractLoop_zeroFrame fuel

/-! ## Processing a full frame at the head of the part_000 buffer -/

theorem processLoop_frame_front (fuel : Nat) (f rest : List Nat)
    (hf : f.length = PACKET_SIZE) (hhead : f.getD 0 0 = HEADER_BYTE) :
    processLoop (fuel + 1) (f ++ rest) =
      ((parsePacket f) :: (processLoop fuel rest).1, (processLoop fuel rest).2) := by
  cases f with
  | nil =>
    exfalso
    rw [List.length_nil, PACKET_SIZE] at hf
    omega
  | cons a t =>
    have ha : a = HEADER_BYTE := by rw [List.getD_cons_zero] at hhead; exact hhead
    subst ha
    have hlen : (HEADER_BYTE :: t).length = PACKET_SIZE := hf
    rw [List.length_cons] at hlen
    rw [List.cons_append, processLoop]
    rw [if_neg (by rw [List.length_cons, List.length_append]; omega)]
    rw [List.findIdx?_cons]
    simp only [beq_self_eq_true, if_true, List.drop_zero]
    rw [if_neg (by rw [List.length_cons, List.length_append]; omega)]
    rw [← List.cons_append, List.take_left' hf, List.drop_left' hf]

theorem part000Ingest_frame (f : List Nat) (hf : f.length = PACKET_SIZE)
    (hhead : f.getD 0 0 = HEADER_BYTE) :
    part000Ingest [] f = ([parsePacket f], []) := by
  rw [part000Ingest, List.nil_append]
  obtain ⟨fu, hfu⟩ : ∃ fu, f.length = fu + 1 :=
    ⟨f.length - 1, by rw [hf, PACKET_SIZE]; omega⟩
  rw [hfu]
  have hstep := processLoop_frame_front fu f [] hf hhead
  rw [List.append_nil] at hstep
  rw [hstep, processLoop_nil]

/-! ## Claim C2: checksum gating -/

/-- C2 fails on the part_000 handler: a frame whose computed checksum
mismatches the received byte (the code only warns) is still parsed and handed
downstream. -/
theorem c2_counterexample :
    (part000Ingest [] corruptFrame).1 = [parsePacket corruptFrame] ∧
    (parsePacket corruptFrame).checksumOk = false := by
  constructor
  · rw [part000Ingest_frame corruptFrame (zeroPayloadFrame_length 1) rfl]
  · rw [corruptFrame, parsePacket_zeroPayloadFrame]
    rfl

/-- C2 amended: in the console_1800 decoder a packet is yielded only from a
candidate whose XOR checksum over the payload matches the received byte, and
flipping any single bit of any payload byte of an isolated valid frame makes
the decoder yield nothing. -/
theorem c2_amended_checksum_gate :
    (∀ (fuel : Nat) (buf : List Nat) (p : C1800Packet) (rest : List Nat),
      extractLoop fuel buf = (some p, rest) →
      ∃ h, h + PACKET_LEN ≤ buf.length ∧ buf.getD h 0 = HEADER_BYTE ∧
        xorChecksum (payloadAt buf h) =
          (candidateAt buf h).getD (PACKET_LEN - 1) 0 ∧
        p = parseC1800 (payloadAt buf h) ∧
        rest = buf.drop (h + PACKET_LEN)) ∧
    (∀ (F : List Nat) (k b fuel : Nat),
      F.length = PACKET_LEN → F.getD 0 0 = HEADER_BYTE →
      xorChecksum (payloadAt F 0) = (candidateAt F 0).getD (PACKET_LEN - 1) 0 →
      1 ≤ k → k ≤ PACKET_LEN - 2 → b < 8 →
      (extractLoop fuel (flipByte F k (2 ^ b))).1 = none) :=
  ⟨fun fuel => extractLoop_sound fuel,
   fun F k b fuel h1 h2 h3 h4 h5 h6 => extractLoop_flip_none F k b fuel h1 h2 h3 h4 h5 h6⟩

/-- Witness for C2 at the concrete zero frame and a concrete bit flip. -/
theorem c2_witness :
    (∃ h, h + PACKET_LEN ≤ zeroFrame.length ∧
      zeroFrame.getD h 0 = HEADER_BYTE ∧
      xorChecksum (payloadAt zeroFrame h) =
        (candidateAt zeroFrame h).getD (PACKET_LEN - 1) 0 ∧
      ({ depthIndex := 0, tempScaled := 0, vDrvScaled := 0,
         values := List.replicate NUM_SAMPLES 0 } : C1800Packet) =
        parseC1800 (payloadAt zeroFrame h) ∧
      ([] : List Nat) = zeroFrame.drop (h + PACKET_LEN)) ∧
    (extractLoop 3 (flipByte zeroFrame 1 (2 ^ 0))).1 = none := by
  constructor
  · exact c2_amended_checksum_gate.1 1 zeroFrame _ [] (extractLoop_zeroFrame 0)
  · exact c2_amended_checksum_gate.2 zeroFrame 1 0 3
      zeroFrame_valid_console.1 zeroFrame_valid_console.2.1
      zeroFrame_valid_console.2.2 (le_refl 1)
      (by rw [PACKET_LEN, PAYLOAD_LEN]; omega) (by omega)

/-! ## Claim C3: what a checksum mismatch consumes -/

/-- C3 fails on the part_000 handler: on a checksum mismatch it does not
discard one byte and rescan — it consumes the entire `PACKET_SIZE` candidate
(the leftover buffer is empty, not the candidate minus its header byte). -/
theorem c3_counterexample :
    (parsePacket corruptFrame).checksumOk = false ∧
    (part000Ingest [] corruptFrame).2 ≠ corruptFrame.drop 1 := by
  constructor
  · rw [corruptFrame, parsePacket_zeroPayloadFrame]
    rfl
  · rw [part000Ingest_frame corruptFrame (zeroPayloadFrame_length 1) rfl]
    intro heq
    have hlen := congrArg List.length heq
    rw [corruptFrame, zeroPayloadFrame] at hlen
    rw [List.drop_one, List.tail_cons, List.length_append, List.length_replicate]
      at hlen
    simp at hlen

/-- C3 amended: in the console_1800 decoder a checksum mismatch discards the
bytes through the offending header byte only and rescans the remainder; in
particular a valid frame that starts one byte into the corrupt candidate is
still recovered whole. -/
theorem c3_amended_drop_header_rescan :
    (∀ (fuel : Nat) (buf : List Nat) (h : Nat),
      c1800FindHeader buf = some h →
      xorChecksum (payloadAt buf h) ≠
        (candidateAt buf h).getD (PACKET_LEN - 1) 0 →
      extractLoop (fuel + 1) buf = extractLoop fuel (buf.drop (h + 1))) ∧
    extractLoop 2 (HEADER_BYTE :: zeroFrame) =
      (some { depthIndex := 0, tempScaled := 0, vDrvScaled := 0,
              values := List.replicate NUM_SAMPLES 0 }, []) :=
  ⟨fun fuel buf h hf hmm => extractLoop_eq_mismatch fuel buf h hf hmm,
   extractLoop_recovery 0⟩

/-- Witness for C3 at the concrete spurious-header buffer. -/
theorem c3_witness :
    extractLoop 2 (HEADER_BYTE :: zeroFrame) =
      extractLoop 1 ((HEADER_BYTE :: zeroFrame).drop (0 + 1)) :=
  c3_amended_drop_header_rescan.1 1 (HEADER_BYTE :: zeroFrame) 0
    consHeader_zeroFrame_find consHeader_zeroFrame_mismatch

/-! ## Claim C4: valid-frame streams, junk bytes, and chunking -/

theorem PACKET_SIZE_pos : 0 < PACKET_SIZE := by
  rw [PACKET_SIZE]
  omega

/-- A wire-valid frame: full length, header byte in front, matching checksum. -/
def ValidFrame (f : List Nat) : Prop :=
  f.length = PACKET_SIZE ∧ f.getD 0 0 = HEADER_BYTE ∧
    (parsePacket f).checksumOk = true

theorem validFrame_zeroFrame : ValidFrame zeroFrame := by
  refine ⟨zeroPayloadFrame_length 0, rfl, ?_⟩
  rw [zeroFrame, parsePacket_zeroPayloadFrame]
  rfl

/-- The junk candidate sliced by the part_000 decoder out of
`0xAA ++ zeroFrame`: a spurious header followed by the real frame's header
and the first 3606 zero bytes. -/
theorem take_consHeader_zeroFrame :
    (HEADER_BYTE :: zeroFrame).take PACKET_SIZE =
      HEADER_BYTE :: HEADER_BYTE :: List.replicate (6 + 2 * NUM_SAMPLES) 0 := by
  rw [show PACKET_SIZE = ((6 + 2 * NUM_SAMPLES) + 1) + 1 from by rw [PACKET_SIZE]; omega,
    List.take_succ_cons, zeroFrame, zeroPayloadFrame, List.take_succ_cons,
    List.take_append_of_le_length (by rw [List.length_replicate]),
    List.take_of_length_le (by rw [List.length_replicate])]

theorem drop_consHeader_zeroFrame :
    (HEADER_BYTE :: zeroFrame).drop PACKET_SIZE = [0] := by
  rw [show PACKET_SIZE = ((6 + 2 * NUM_SAMPLES) + 1) + 1 from by rw [PACKET_SIZE]; omega,
    List.drop_succ_cons, zeroFrame, zeroPayloadFrame, List.drop_succ_cons,
    List.drop_left' (List.length_replicate _ _)]

theorem junk_candidate_depthIndex :
    (parsePacket
      (HEADER_BYTE :: HEADER_BYTE :: List.replicate (6 + 2 * NUM_SAMPLES) 0)).depthIndex =
      HEADER_BYTE * 256 := by
  have hpay : ((HEADER_BYTE :: HEADER_BYTE ::
      List.replicate (6 + 2 * NUM_SAMPLES) 0).drop 1).take (PACKET_SIZE - 2) =
      HEADER_BYTE :: List.replicate (6 + 2 * NUM_SAMPLES - 1) 0 := by
    rw [List.drop_one, List.tail_cons,
      show PACKET_SIZE - 2 = (6 + 2 * NUM_SAMPLES - 1) + 1 from by rw [PACKET_SIZE]; omega,
      List.take_succ_cons, List.take_replicate,
      show (6 + 2 * NUM_SAMPLES - 1) ⊓ (6 + 2 * NUM_SAMPLES) =
        6 + 2 * NUM_SAMPLES - 1 from by omega]
  rw [parsePacket]
  dsimp only
  rw [hpay, readUInt16BE, List.getD_cons_zero, List.getD_cons_succ,
    getD_replicate_zero]
  omega

/-- C4 fails on the part_000 decoder: one junk byte that happens to be `0xAA`
in front of a valid frame makes the decoder slice a garbage candidate
spanning into the frame (and ship it — there is no checksum gate), swallowing
the real frame; the yield is not the list of originally-valid frames. -/
theorem c4_counterexample :
    ValidFrame zeroFrame ∧
    (part000Ingest [] (HEADER_BYTE :: zeroFrame)).1 ≠ [parsePacket zeroFrame] := by
  refine ⟨validFrame_zeroFrame, ?_⟩
  have hlen : (HEADER_BYTE :: zeroFrame).length = PACKET_SIZE + 1 := by
    rw [List.length_cons, zeroFrame, zeroPayloadFrame_length]
  have hstep := processLoop_step PACKET_SIZE zeroFrame (by rw [hlen]; omega)
  have hing : part000Ingest [] (HEADER_BYTE :: zeroFrame) =
      ([parsePacket (HEADER_BYTE :: HEADER_BYTE ::
          List.replicate (6 + 2 * NUM_SAMPLES) 0)], [0]) := by
    rw [part000Ingest, List.nil_append, hlen, hstep, take_consHeader_zeroFrame,
      drop_consHeader_zeroFrame,
      processLoop_short PACKET_SIZE [0] (by rw [List.length_singleton]; rw [PACKET_SIZE]; omega)]
  rw [hing]
  intro heq
  have h1 : parsePacket (HEADER_BYTE :: HEADER_BYTE ::
      List.replicate (6 + 2 * NUM_SAMPLES) 0) = parsePacket zeroFrame := by
    injection heq
  have h2 := congrArg ParsedPacket.depthIndex h1
  rw [junk_candidate_depthIndex, zeroFrame, parsePacket_zeroPayloadFrame] at h2
  rw [HEADER_BYTE] at h2
  simp at h2

/-- Processing a buffer that is a row of valid frames followed by a short
remainder yields exactly those frames and leaves the remainder. -/
theorem processLoop_aligned (fs : List (List Nat)) :
    ∀ (r : List Nat) (fuel : Nat),
      (∀ f ∈ fs, ValidFrame f) → r.length < PACKET_SIZE →
      (fs.flatten ++ r).length ≤ fuel →
      processLoop fuel (fs.flatten ++ r) = (fs.map parsePacket, r) := by
  induction fs with
  | nil =>
    intro r fuel _ hr _
    rw [List.flatten_nil, List.nil_append, List.map_nil]
    exact processLoop_short fuel r hr
  | cons f fs ih =>
    intro r fuel hvalid hr hfuel
    have hvf : ValidFrame f := hvalid f (List.mem_cons_self f fs)
    have hlen2 : ((f :: fs).flatten ++ r).length =
        PACKET_SIZE + (fs.flatten ++ r).length := by
      rw [List.flatten_cons, List.append_assoc, List.length_append, hvf.1]
    obtain ⟨fu, rfl⟩ : ∃ fu, fuel = fu + 1 := by
      have := PACKET_SIZE_pos
      rw [hlen2] at hfuel
      exact ⟨fuel - 1, by omega⟩
    rw [List.flatten_cons, List.append_assoc,
      processLoop_frame_front fu f (fs.flatten ++ r) hvf.1 hvf.2.1,
      ih r fu (fun g hg => hvalid g (List.mem_cons_of_mem f hg)) hr
        (by rw [hlen2] at hfuel; have := PACKET_SIZE_pos; omega),
      List.map_cons]

/-- Any prefix of a row of fixed-size frames splits into whole frames plus a
short remainder that is again a prefix of the remaining frames. -/
theorem flatten_frames_decompose (fs : List (List Nat)) :
    ∀ p : List Nat, (∀ f ∈ fs, f.length = PACKET_SIZE) →
      (∃ t, p ++ t = fs.flatten) →
      ∃ k r, p = (fs.take k).flatten ++ r ∧ r.length < PACKET_SIZE ∧
        ∃ t2, r ++ t2 = (fs.drop k).flatten := by
  induction fs with
  | nil =>
    intro p _ hpre
    obtain ⟨t, ht⟩ := hpre
    rw [List.flatten_nil] at ht
    have hp : p = [] := by
      have hlen := congrArg List.length ht
      rw [List.length_append, List.length_nil] at hlen
      exact List.eq_nil_of_length_eq_zero (by omega)
    subst hp
    exact ⟨0, [], by simp, PACKET_SIZE_pos, ⟨[], rfl⟩⟩
  | cons f fs ih =>
    intro p hlens hpre
    by_cases hp : p.length < PACKET_SIZE
    · refine ⟨0, p, by simp, hp, ?_⟩
      rw [List.drop_zero]
      exact hpre
    · obtain ⟨t, ht⟩ := hpre
      rw [List.flatten_cons] at ht
      have hfl : f.length = PACKET_SIZE := hlens f (List.mem_cons_self f fs)
      have hPle : f.length ≤ p.length := by omega
      have htake : p.take f.length = f := by
        calc p.take f.length = (p ++ t).take f.length :=
              (List.take_append_of_le_length hPle).symm
          _ = (f ++ fs.flatten).take f.length := by rw [ht]
          _ = f := by
              rw [List.take_append_of_le_length (le_refl _), List.take_length]
      have hdrop : p.drop f.length ++ t = fs.flatten := by
        calc p.drop f.length ++ t
            = p.drop f.length ++ t.drop (f.length - p.length) := by
              rw [show f.length - p.length = 0 from by omega, List.drop_zero]
          _ = (p ++ t).drop f.length := (List.drop_append_eq_append_drop).symm
          _ = (f ++ fs.flatten).drop f.length := by rw [ht]
          _ = fs.flatten := List.drop_left f fs.flatten
      obtain ⟨k, r, hk1, hk2, hk3⟩ := ih (p.drop f.length)
        (fun g hg => hlens g (List.mem_cons_of_mem f hg)) ⟨t, hdrop⟩
      refine ⟨k + 1, r, ?_, hk2, ?_⟩
      · calc p = p.take f.length ++ p.drop f.length :=
              (List.take_append_drop _ _).symm
          _ = f ++ ((fs.take k).flatten ++ r) := by rw [htake, hk1]
          _ = (f :: fs.take k).flatten ++ r := by
              rw [List.flatten_cons, List.append_assoc]
          _ = ((f :: fs).take (k + 1)).flatten ++ r := by
              rw [List.take_succ_cons]
      · rw [List.drop_succ_cons]
        exact hk3

/-- The chunk-feeding loop, over an arbitrary suffix position of the frame
row. -/
theorem feed_loop (chunks : List (List Nat)) :
    ∀ (fs : List (List Nat)) (k : Nat) (r : List Nat) (acc : List ParsedPacket),
      (∀ f ∈ fs, ValidFrame f) → r.length < PACKET_SIZE →
      r ++ chunks.flatten = (fs.drop k).flatten →
      chunks.foldl
        (fun acc chunk =>
          let step := part000Ingest acc.2 chunk
          (acc.1 ++ step.1, step.2)) (acc, r) =
      (acc ++ ((fs.drop k).map parsePacket), []) := by
  induction chunks with
  | nil =>
    intro fs k r acc hvalid hr hjoin
    rw [List.flatten_nil, List.append_nil] at hjoin
    have hnil : fs.drop k = [] := by
      cases hd : fs.drop k with
      | nil => rfl
      | cons g gs =>
        exfalso
        have hg : ValidFrame g := hvalid g (List.mem_of_mem_drop (by
          rw [hd]; exact List.mem_cons_self g gs))
        rw [hd] at hjoin
        have hlen := congrArg List.length hjoin
        rw [List.flatten_cons, List.length_append, hg.1] at hlen
        omega
    rw [hnil] at hjoin ⊢
    rw [List.flatten_nil] at hjoin
    subst hjoin
    rw [List.foldl_nil, List.map_nil, List.append_nil]
  | cons c cs ih =>
    intro fs k r acc hvalid hr hjoin
    rw [List.foldl_cons]
    dsimp only
    have hdropvalid : ∀ f ∈ fs.drop k, ValidFrame f :=
      fun f hf => hvalid f (List.mem_of_mem_drop hf)
    have hpre : ∃ t, (r ++ c) ++ t = (fs.drop k).flatten := by
      refine ⟨cs.flatten, ?_⟩
      rw [List.flatten_cons] at hjoin
      rw [List.append_assoc]
      exact hjoin
    obtain ⟨k2, r2, hk1, hk2, hk3⟩ := flatten_frames_decompose (fs.drop k) (r ++ c)
      (fun f hf => (hdropvalid f hf).1) hpre
    have hproc : part000Ingest r c = (((fs.drop k).take k2).map parsePacket, r2) := by
      rw [part000Ingest, hk1]
      exact processLoop_aligned ((fs.drop k).take k2) r2 _
        (fun f hf => hdropvalid f (List.mem_of_mem_take hf)) hk2 le_rfl
    rw [hproc]
    have hjoin2 : r2 ++ cs.flatten = (fs.drop (k + k2)).flatten := by
      have h1 : ((fs.drop k).take k2).flatten ++ (r2 ++ cs.flatten) =
          ((fs.drop k).take k2).flatten ++ ((fs.drop k).drop k2).flatten := by
        calc ((fs.drop k).take k2).flatten ++ (r2 ++ cs.flatten)
            = (((fs.drop k).take k2).flatten ++ r2) ++ cs.flatten := by
              rw [List.append_assoc]
          _ = (r ++ c) ++ cs.flatten := by rw [← hk1]
          _ = r ++ (c :: cs).flatten := by
              rw [List.flatten_cons, List.append_assoc]
          _ = (fs.drop k).flatten := hjoin
          _ = (((fs.drop k).take k2) ++ ((fs.drop k).drop k2)).flatten := by
              rw [List.take_append_drop]
          _ = ((fs.drop k).take k2).flatten ++ ((fs.drop k).drop k2).flatten := by
              rw [List.flatten_append]
      have h2 := List.append_cancel_left h1
      rw [h2, List.drop_drop]
    rw [ih fs (k + k2) r2 (acc ++ ((fs.drop k).take k2).map parsePacket)
      hvalid hk2 hjoin2]
    rw [List.append_assoc, ← List.map_append, ← List.drop_drop,
      List.take_append_drop]

/-- C4 amended: for a byte stream that is exactly a concatenation of valid
frames (no junk bytes), the part_000 decoder yields exactly those frames in
order, for every chunking of the stream into data events, and ends with an
empty buffer.  (With junk bytes the original claim fails: see the
counterexample, where a junk `0xAA` swallows a valid frame because the cited
decoders yield without checksum verification.) -/
theorem c4_amended_chunking_invariance (fs chunks : List (List Nat))
    (hvalid : ∀ f ∈ fs, ValidFrame f)
    (hjoin : chunks.flatten = fs.flatten) :
    feedChunks chunks = (fs.map parsePacket, []) := by
  rw [feedChunks]
  have hloop := feed_loop chunks fs 0 [] [] hvalid PACKET_SIZE_pos
    (by rw [List.nil_append, List.drop_zero]; exact hjoin)
  rw [List.drop_zero, List.nil_append] at hloop
  exact hloop

/-- Witness for C4: one valid frame split into two chunks mid-frame. -/
theorem c4_witness :
    feedChunks [zeroFrame.take 100, zeroFrame.drop 100] =
      ([parsePacket zeroFrame], []) := by
  have hv : ∀ f ∈ [zeroFrame], ValidFrame f := by
    intro f hf
    rw [List.mem_singleton] at hf
    subst hf
    exact validFrame_zeroFrame
  have hj : ([zeroFrame.take 100, zeroFrame.drop 100] : List (List Nat)).flatten =
      ([zeroFrame] : List (List Nat)).flatten := by
    rw [List.flatten_cons, List.flatten_cons, List.flatten_nil,
      List.flatten_cons, List.flatten_nil, List.append_nil, List.append_nil,
      List.take_append_drop]
  have h := c4_amended_chunking_invariance [zeroFrame]
    [zeroFrame.take 100, zeroFrame.drop 100] hv hj
  rw [List.map_cons, List.map_nil] at h
  exact h

/-! ## Claim C8: the consistency tracker -/

/-- C8: the tracker returns the empty set until the window holds
`CONSISTENCY_SAMPLES` peak sets; once full, it returns exactly the indices of
the newest peak set that lie within `POSITION_TOLERANCE` of some index of
every older set in the window; and on the example sets `[{10},{12},{9}]`
(window 3, tolerance 5) index 9 is reported as consistent. -/
theorem c8_consistency_window :
    (∀ (st : TrackerState) (values : List Nat),
      st.buffer.length + 1 < st.bufferSize → (updateTracker st values).2 = []) ∧
    (∀ (st : TrackerState) (values : List Nat) (i : Nat),
      st.bufferSize ≤ st.buffer.length + 1 → st.buffer.length ≤ st.bufferSize →
      (∀ past ∈ st.buffer, ∀ j ∈ past, j < NUM_SAMPLES) →
      (i ∈ (updateTracker st values).2 ↔
        i ∈ peakIndices st.threshold values ∧
        ∀ past ∈ ((updateTracker st values).1.buffer).dropLast, ∃ j ∈ past,
          |(i : Int) - (j : Int)| ≤ (st.tolerance : Int))) ∧
    ((updateTracker (SignalTracker.mk0 CONSISTENCY_SAMPLES THRESHOLD
        POSITION_TOLERANCE) (List.replicate 10 0 ++ [100])).2 = [] ∧
     (updateTracker (updateTracker (SignalTracker.mk0 CONSISTENCY_SAMPLES
        THRESHOLD POSITION_TOLERANCE) (List.replicate 10 0 ++ [100])).1
        (List.replicate 12 0 ++ [100])).2 = [] ∧
     (updateTracker (updateTracker (updateTracker (SignalTracker.mk0
        CONSISTENCY_SAMPLES THRESHOLD POSITION_TOLERANCE)
        (List.replicate 10 0 ++ [100])).1
        (List.replicate 12 0 ++ [100])).1
        (List.replicate 9 0 ++ [100])).2 = [9]) := by
  refine ⟨?_, ?_, by decide⟩
  · intro st values h
    rw [updateTracker]
    have hnoshift : ¬ st.bufferSize < (st.buffer ++ [peakIndices st.threshold values]).length := by
      rw [List.length_append, List.length_singleton]
      omega
    rw [if_neg hnoshift,
      if_pos (by rw [List.length_append, List.length_singleton]; omega)]
  · intro st values i hK1 hK2 hbound
    rw [updateTracker]
    have hlenbuf1 : (st.buffer ++ [peakIndices st.threshold values]).length =
        st.buffer.length + 1 := by
      rw [List.length_append, List.length_singleton]
    by_cases hshift : st.bufferSize <
        (st.buffer ++ [peakIndices st.threshold values]).length
    · rw [if_pos hshift]
      have hlen2 : ((st.buffer ++ [peakIndices st.threshold values]).drop 1).length =
          st.bufferSize := by
        rw [List.length_drop, hlenbuf1]
        rw [hlenbuf1] at hshift
        omega
      rw [if_neg (by omega)]
      have hsub : ∀ past ∈
          ((st.buffer ++ [peakIndices st.threshold values]).drop 1).dropLast,
          past ∈ st.buffer := by
        intro past hpast
        cases hb : st.buffer with
        | nil =>
          rw [hb, List.nil_append, List.drop_one, List.tail_cons] at hpast
          simp at hpast
        | cons b0 bs =>
          rw [hb, List.cons_append, List.drop_one, List.tail_cons,
            List.dropLast_concat] at hpast
          exact List.mem_cons_of_mem b0 hpast
      rw [List.mem_filter]
      dsimp only
      rw [List.all_eq_true, ← List.dropLast_eq_take]
      constructor
      · rintro ⟨hmem, hall⟩
        refine ⟨hmem, fun past hpast => ?_⟩
        have hm := hall past hpast
        rw [matchesPast, List.any_eq_true] at hm
        obtain ⟨j, hj, hcond⟩ := hm
        rw [decide_eq_true_eq] at hcond
        have hjb : j < NUM_SAMPLES := hbound past (hsub past hpast) j hj
        exact ⟨j, hj, by rw [abs_sub_le_iff]; constructor <;> omega⟩
      · rintro ⟨hmem, hforall⟩
        refine ⟨hmem, fun past hpast => ?_⟩
        obtain ⟨j, hj, habs⟩ := hforall past hpast
        rw [matchesPast, List.any_eq_true]
        have hjb : j < NUM_SAMPLES := hbound past (hsub past hpast) j hj
        rw [abs_sub_le_iff] at habs
        obtain ⟨ha1, ha2⟩ := habs
        exact ⟨j, hj, by rw [decide_eq_true_eq]; constructor <;> omega⟩
    · rw [if_neg hshift]
      have hlen2 : (st.buffer ++ [peakIndices st.threshold values]).length =
          st.bufferSize := by
        rw [hlenbuf1]
        rw [hlenbuf1] at hshift
        omega
      rw [if_neg (by omega)]
      have hsub : ∀ past ∈
          (st.buffer ++ [peakIndices st.threshold values]).dropLast,
          past ∈ st.buffer := by
        intro past hpast
        rw [List.dropLast_concat] at hpast
        exact hpast
      rw [List.mem_filter]
      dsimp only
      rw [List.all_eq_true, ← List.dropLast_eq_take]
      constructor
      · rintro ⟨hmem, hall⟩
        refine ⟨hmem, fun past hpast => ?_⟩
        have hm := hall past hpast
        rw [matchesPast, List.any_eq_true] at hm
        obtain ⟨j, hj, hcond⟩ := hm
        rw [decide_eq_true_eq] at hcond
        have hjb : j < NUM_SAMPLES := hbound past (hsub past hpast) j hj
        exact ⟨j, hj, by rw [abs_sub_le_iff]; constructor <;> omega⟩
      · rintro ⟨hmem, hforall⟩
        refine ⟨hmem, fun past hpast => ?_⟩
        obtain ⟨j, hj, habs⟩ := hforall past hpast
        rw [matchesPast, List.any_eq_true]
        have hjb : j < NUM_SAMPLES := hbound past (hsub past hpast) j hj
        rw [abs_sub_le_iff] at habs
        obtain ⟨ha1, ha2⟩ := habs
        exact ⟨j, hj, by rw [decide_eq_true_eq]; constructor <;> omega⟩

/-- Witness for C8 on concrete tracker states. -/
theorem c8_witness :
    (updateTracker (SignalTracker.mk0 3 60 5) (List.replicate 7 0)).2 = [] ∧
    (9 ∈ (updateTracker
        { buffer := [[10], [12]], bufferSize := 3, threshold := 60, tolerance := 5 }
        (List.replicate 9 0 ++ [100])).2 ↔
      9 ∈ peakIndices 60 (List.replicate 9 0 ++ [100]) ∧
      ∀ past ∈ ((updateTracker
          { buffer := [[10], [12]], bufferSize := 3, threshold := 60, tolerance := 5 }
          (List.replicate 9 0 ++ [100])).1.buffer).dropLast, ∃ j ∈ past,
        |(9 : Int) - (j : Int)| ≤ (5 : Int)) :=
  ⟨c8_consistency_window.1 (SignalTracker.mk0 3 60 5) (List.replicate 7 0)
    (by decide),
   c8_consistency_window.2.1
    { buffer := [[10], [12]], bufferSize := 3, threshold := 60, tolerance := 5 }
    (List.replicate 9 0 ++ [100]) 9 (by decide) (by decide) (by decide)⟩

end OpenEcho
